import Mathlib

/-!
Verification development for the `hexes` repository.

The repository implements a hexagonal-grid painting tool.  Its computational
core (`hex.py`, `grid.py`, duplicated in `hex_clicker.py`) consists of

* `point_in_polygon` — a ray-casting point-in-polygon test,
* `Hex` — a cell with offset coordinates, a derived center, vertex
  generation and hit-testing,
* `create_hex_grid` / `HexGrid` — grid construction, rebuilding with
  terrain preservation, and terrain randomization.

All floating-point quantities the program computes (centers, vertex offsets,
ray-casting x-intercepts) lie in the ring ℚ[√3] once the trigonometric
factors `cos/sin (k·30°)` are taken exactly, so the geometry is embedded
exactly over that ring (structure `R3` below) and every operation stays
executable.  Python's `int(...)` truncation toward zero is modelled by
`R3.trunc`, and `float` arithmetic is modelled as exact real arithmetic.
-/

set_option allowUnsafeReducibility true

attribute [local semireducible] Rat.add Rat.sub Rat.mul Rat.inv

/-- Bisection step for the integer square root: maintains `lo² ≤ n < hi²`.
Structurally recursive on the fuel so the kernel can evaluate it (the
library `Nat.sqrt` is defined by well-founded recursion, which the kernel
cannot reduce). -/
def sqrtGo (n : ℕ) : ℕ → ℕ → ℕ → ℕ
  | 0, lo, _ => lo
  | f + 1, lo, hi =>
    if lo + 1 < hi then
      if ((lo + hi) / 2) * ((lo + hi) / 2) ≤ n then sqrtGo n f ((lo + hi) / 2) hi
      else sqrtGo n f lo ((lo + hi) / 2)
    else lo

/-- Kernel-evaluable integer square root. -/
def natSqrt (n : ℕ) : ℕ := sqrtGo n (n + 1) 0 (n + 1)

/-- An element `a + b·√3` of the ring ℚ[√3]. -/
structure R3 where
  a : ℚ
  b : ℚ
deriving DecidableEq

namespace R3

/-- Interpretation of an `R3` value as a real number. -/
noncomputable def toReal (r : R3) : ℝ := (r.a : ℝ) + (r.b : ℝ) * Real.sqrt 3

/-- Embedding of an integer. -/
def ofInt (z : ℤ) : R3 := ⟨(z : ℚ), 0⟩

/-- Embedding of a rational. -/
def ofQ (q : ℚ) : R3 := ⟨q, 0⟩

def add (r s : R3) : R3 := ⟨r.a + s.a, r.b + s.b⟩

def sub (r s : R3) : R3 := ⟨r.a - s.a, r.b - s.b⟩

def neg (r : R3) : R3 := ⟨-r.a, -r.b⟩

/-- Multiplication by a rational scalar. -/
def mulQ (r : R3) (q : ℚ) : R3 := ⟨r.a * q, r.b * q⟩

/-- Division by a rational scalar. -/
def divQ (r : R3) (q : ℚ) : R3 := ⟨r.a / q, r.b / q⟩

/-- Decides `0 ≤ a + b·√3` by comparing squares of rationals. -/
def nonneg (r : R3) : Bool :=
  if 0 ≤ r.a then
    (if 0 ≤ r.b then true else decide (3 * r.b ^ 2 ≤ r.a ^ 2))
  else
    (if 0 ≤ r.b then decide (r.a ^ 2 ≤ 3 * r.b ^ 2) else false)

/-- Decides `r ≤ s` over ℚ[√3]. -/
def leB (r s : R3) : Bool := nonneg (sub s r)

/-- Decides `r < s` over ℚ[√3]. -/
def ltB (r s : R3) : Bool := ! nonneg (sub r s)

/-- `⌊s·√3⌋` for an integer `s`, computed with `natSqrt`. -/
def isqrt3 (s : ℤ) : ℤ :=
  if 0 ≤ s then ((natSqrt (3 * s.natAbs ^ 2) : ℕ) : ℤ)
  else -((natSqrt (3 * s.natAbs ^ 2) : ℕ) : ℤ) - 1

/-- Floor of an `R3` value, computed from integer data only. -/
def floor (r : R3) : ℤ :=
  (r.a.num * (r.b.den : ℤ) + isqrt3 (r.b.num * (r.a.den : ℤ))) / ((r.a.den : ℤ) * (r.b.den : ℤ))

/-- Python `int(...)`: truncation toward zero, on `R3`. -/
def trunc (r : R3) : ℤ := if r.nonneg then r.floor else -(floor (neg r))

/-- Python `int(...)`: truncation toward zero, on ℝ (specification side). -/
noncomputable def truncReal (x : ℝ) : ℤ := if 0 ≤ x then ⌊x⌋ else -⌊-x⌋

end R3


/-! ## The embedded program

Source: `src/hex.py` and `src/grid.py` (the same code is duplicated inside
`src/hex_clicker.py`).  Machine floats are modelled as exact values in ℚ[√3];
`int(...)` is `R3.trunc`; `random.randint(0, n-1)` is modelled by drawing the
next value from an externally supplied stream `rng : ℕ → ℕ` reduced `% n`
(faithful for `n ≥ 1`, the only case the program exercises). -/

/-- Exact value of `cos (i·π/3)` for `i < 6` (certified against `Real.cos`
in the theorem for claim C9). -/
def cosFlatTab (i : ℕ) : R3 :=
  match i with
  | 0 => ⟨1, 0⟩ | 1 => ⟨1/2, 0⟩ | 2 => ⟨-1/2, 0⟩ | 3 => ⟨-1, 0⟩ | 4 => ⟨-1/2, 0⟩ | _ => ⟨1/2, 0⟩

/-- Exact value of `sin (i·π/3)` for `i < 6`. -/
def sinFlatTab (i : ℕ) : R3 :=
  match i with
  | 0 => ⟨0, 0⟩ | 1 => ⟨0, 1/2⟩ | 2 => ⟨0, 1/2⟩ | 3 => ⟨0, 0⟩ | 4 => ⟨0, -1/2⟩ | _ => ⟨0, -1/2⟩

/-- Exact value of `cos (i·π/3 + π/6)` for `i < 6`. -/
def cosPointyTab (i : ℕ) : R3 :=
  match i with
  | 0 => ⟨0, 1/2⟩ | 1 => ⟨0, 0⟩ | 2 => ⟨0, -1/2⟩ | 3 => ⟨0, -1/2⟩ | 4 => ⟨0, 0⟩ | _ => ⟨0, 1/2⟩

/-- Exact value of `sin (i·π/3 + π/6)` for `i < 6`. -/
def sinPointyTab (i : ℕ) : R3 :=
  match i with
  | 0 => ⟨1/2, 0⟩ | 1 => ⟨1, 0⟩ | 2 => ⟨1/2, 0⟩ | 3 => ⟨-1/2, 0⟩ | 4 => ⟨-1, 0⟩ | _ => ⟨-1/2, 0⟩

/-- `Hex._calculate_center` (hex.py, lines 47-58): the center coordinates of a
cell from its grid position.  The `"Flat"` branch is taken exactly when
`orientation == "Flat"`; every other string falls to the pointy-top branch. -/
def calculate_center (col row size : ℕ) (orientation : String) : R3 × R3 :=
  if orientation = "Flat" then
    (R3.ofQ ((size : ℚ) * 3 / 2 * col + size + 10),
     ⟨(size : ℚ) + 10, (size : ℚ) * ((row : ℚ) + 1 / 2 * ((col % 2 : ℕ) : ℚ))⟩)
  else
    (⟨(size : ℚ) + 10, (size : ℚ) * ((col : ℚ) + 1 / 2 * ((row % 2 : ℕ) : ℚ))⟩,
     R3.ofQ ((size : ℚ) * 3 / 2 * row + size + 10))

/-- A cell (`Hex.__init__` stores these fields; `center_x`/`center_y` are
computed by `_calculate_center` in `Hex.make` below). -/
structure Hex where
  col : ℕ
  row : ℕ
  size : ℕ
  terrain_index : ℤ
  border : ℕ
  orientation : String
  center_x : R3
  center_y : R3
deriving DecidableEq

/-- `Hex.__init__`: stores the fields and computes the center. -/
def Hex.make (col row size : ℕ) (terrain_index : ℤ) (border : ℕ) (orientation : String) : Hex :=
  let c := calculate_center col row size orientation
  ⟨col, row, size, terrain_index, border, orientation, c.1, c.2⟩

/-- `Hex.get_vertices`: six vertices at radius `size` around the center,
coordinates truncated by `int(...)`. -/
def Hex.get_vertices (h : Hex) (size : ℕ) : List (ℤ × ℤ) :=
  (List.range 6).map (fun i =>
    if h.orientation = "Flat" then
      (R3.trunc (R3.add h.center_x ((cosFlatTab i).mulQ size)),
       R3.trunc (R3.add h.center_y ((sinFlatTab i).mulQ size)))
    else
      (R3.trunc (R3.add h.center_x ((cosPointyTab i).mulQ size)),
       R3.trunc (R3.add h.center_y ((sinPointyTab i).mulQ size))))

/-- Loop state of `point_in_polygon`: the parity flag `inside` and the local
variable `xinters`, which is `none` while still unassigned. -/
structure PipState where
  inside : Bool
  xinters : Option R3
deriving DecidableEq

/-- One iteration of the `point_in_polygon` loop for the edge `p1 → p2`.
Returns `none` if the comparison `x <= xinters` would read `xinters` before
any assignment (Python would raise `UnboundLocalError`). -/
def pipStep (x y : R3) (p1 p2 : ℤ × ℤ) (s : PipState) : Option PipState :=
  let xi : Option R3 :=
    if p1.2 ≠ p2.2 then
      some (R3.add (R3.divQ (R3.mulQ (R3.sub y (R3.ofInt p1.2)) ((p2.1 : ℚ) - (p1.1 : ℚ)))
        ((p2.2 : ℚ) - (p1.2 : ℚ))) (R3.ofInt p1.1))
    else s.xinters
  if R3.ltB (R3.ofInt (min p1.2 p2.2)) y && R3.leB y (R3.ofInt (max p1.2 p2.2)) &&
      R3.leB x (R3.ofInt (max p1.1 p2.1)) then
    if p1.1 = p2.1 then some ⟨!s.inside, xi⟩
    else
      match xi with
      | none => none
      | some v => if R3.leB x v then some ⟨!s.inside, xi⟩ else some ⟨s.inside, xi⟩
  else some s

/-- The `point_in_polygon` loop over the edges `p1 → head of list`, etc. -/
def pipLoop (x y : R3) : List (ℤ × ℤ) → (ℤ × ℤ) → PipState → Option PipState
  | [], _, s => some s
  | p2 :: es, p1, s =>
    match pipStep x y p1 p2 s with
    | none => none
    | some s2 => pipLoop x y es p2 s2

/-- `point_in_polygon` (hex.py, lines 10-28): ray casting over the closed
edge sequence `v0 → v1 → … → v(n-1) → v0`.  `none` models the two Python
failure modes: an empty vertex list (`vertices[0]` raises) and an
uninitialized read of `xinters`. -/
def point_in_polygon (point : R3 × R3) (vertices : List (ℤ × ℤ)) : Option Bool :=
  match vertices with
  | [] => none
  | v0 :: rest => (pipLoop point.1 point.2 (rest ++ [v0]) v0 ⟨false, none⟩).map PipState.inside

/-- `point_in_polygon` as a plain Bool (it never actually fails on the
6-vertex lists the program passes; see the theorem for claim C1). -/
def pipB (point : R3 × R3) (vertices : List (ℤ × ℤ)) : Bool :=
  (point_in_polygon point vertices).getD false

/-- `Hex.contains_point`: pygame `Rect(cx-size, cy-size, 2size, 2size)`
truncates its float arguments toward zero, `collidepoint` truncates the point
likewise and treats right/bottom edges as exclusive; then the polygon test. -/
def Hex.contains_point (h : Hex) (point : R3 × R3) : Bool :=
  let left : ℤ := R3.trunc (R3.sub h.center_x (R3.ofInt h.size))
  let top : ℤ := R3.trunc (R3.sub h.center_y (R3.ofInt h.size))
  let px : ℤ := R3.trunc point.1
  let py : ℤ := R3.trunc point.2
  (decide (left ≤ px) && decide (px < left + 2 * (h.size : ℤ)) &&
   decide (top ≤ py) && decide (py < top + 2 * (h.size : ℤ))) &&
  pipB point (h.get_vertices h.size)

/-- `Hex.randomize_terrain`: `random.randint(0, n-1)` with the supplied draw. -/
def Hex.randomize_terrain (h : Hex) (num_terrain_types : ℕ) (draw : ℕ) : Hex :=
  { h with terrain_index := ((draw % num_terrain_types : ℕ) : ℤ) }

/-- The dictionary `existing_terrains` of `create_hex_grid`: last insertion
wins, so look at the last hex in the list with the given coordinates. -/
def terrainLookup (hexes : List Hex) (c r : ℕ) : Option ℤ :=
  (hexes.reverse.find? (fun h => h.col == c && h.row == r)).map Hex.terrain_index

/-- Column-major coordinate enumeration of the two nested `for` loops. -/
def coordList (cols rows : ℕ) : List (ℕ × ℕ) :=
  (List.range cols).flatMap (fun c => (List.range rows).map (fun r => (c, r)))

/-- Body of the `create_hex_grid` loops: one cell per coordinate, taking a
preserved terrain when the lookup has one and the next random draw
otherwise (`k` counts the draws consumed so far). -/
def buildCells (size border : ℕ) (orientation : String) (num : ℕ) (rng : ℕ → ℕ)
    (look : ℕ → ℕ → Option ℤ) : List (ℕ × ℕ) → ℕ → List Hex
  | [], _ => []
  | (c, r) :: rest, k =>
    match look c r with
    | some t => Hex.make c r size t border orientation ::
        buildCells size border orientation num rng look rest k
    | none => Hex.make c r size ((rng k % num : ℕ) : ℤ) border orientation ::
        buildCells size border orientation num rng look rest (k + 1)

/-- `create_hex_grid` (grid.py, lines 10-41). -/
def create_hex_grid (cols rows size border : ℕ) (orientation : String)
    (num_terrain_types : ℕ) (existing_hexes : Option (List Hex)) (rng : ℕ → ℕ) : List Hex :=
  let look : ℕ → ℕ → Option ℤ := fun c r =>
    match existing_hexes with
    | none => none
    | some hs => terrainLookup hs c r
  buildCells size border orientation num_terrain_types rng look (coordList cols rows) 0

/-- An entry of the terrain palette. -/
structure TerrainType where
  name : String
  color : ℕ × ℕ × ℕ
deriving DecidableEq

/-- `DEFAULT_TERRAIN_TYPES` (constants.py). -/
def DEFAULT_TERRAIN_TYPES : List TerrainType :=
  [⟨"Plains", (210, 230, 115)⟩, ⟨"Desert", (237, 201, 175)⟩, ⟨"Forest", (76, 166, 107)⟩,
   ⟨"Water", (118, 182, 237)⟩, ⟨"Mountains", (166, 162, 140)⟩, ⟨"Hills", (148, 196, 139)⟩,
   ⟨"Swamp", (76, 128, 107)⟩]

/-- `HexGrid` (grid.py). -/
structure HexGrid where
  cols : ℕ
  rows : ℕ
  size : ℕ
  border : ℕ
  orientation : String
  terrain_types : List TerrainType
  selected_hex : Option Hex
  hexes : List Hex
deriving DecidableEq

/-- `HexGrid.__init__` (grid.py, lines 47-62): stores the parameters and
builds the initial grid with no existing hexes. -/
def HexGrid.init (cols rows size border : ℕ) (orientation : String)
    (terrain_types : List TerrainType) (rng : ℕ → ℕ) : HexGrid :=
  { cols := cols
    rows := rows
    size := size
    border := border
    orientation := orientation
    terrain_types := terrain_types
    selected_hex := none
    hexes := create_hex_grid cols rows size border orientation terrain_types.length none rng }

/-- `HexGrid.rebuild_grid` (grid.py, lines 64-87): overrides any provided
parameters, then rebuilds passing the current cells as `existing_hexes`. -/
def HexGrid.rebuild_grid (g : HexGrid) (new_cols new_rows new_size new_border : Option ℕ)
    (new_orientation : Option String) (rng : ℕ → ℕ) : HexGrid :=
  let cols := new_cols.getD g.cols
  let rows := new_rows.getD g.rows
  let size := new_size.getD g.size
  let border := new_border.getD g.border
  let orientation := new_orientation.getD g.orientation
  { g with
    cols := cols
    rows := rows
    size := size
    border := border
    orientation := orientation
    hexes := create_hex_grid cols rows size border orientation g.terrain_types.length
      (some g.hexes) rng }

/-- `HexGrid.find_hex_at_position` (grid.py, lines 89-94): first cell, in
list order, containing the position. -/
def HexGrid.find_hex_at_position (g : HexGrid) (pos : R3 × R3) : Option Hex :=
  g.hexes.find? (fun h => h.contains_point pos)

/-- Body of `randomize_all_terrains`: each cell takes its own fresh draw. -/
def randomizeCells (num : ℕ) (rng : ℕ → ℕ) : List Hex → ℕ → List Hex
  | [], _ => []
  | h :: t, k => h.randomize_terrain num (rng k) :: randomizeCells num rng t (k + 1)

/-- `HexGrid.randomize_all_terrains` (grid.py, lines 96-99). -/
def HexGrid.randomize_all_terrains (g : HexGrid) (rng : ℕ → ℕ) : HexGrid :=
  { g with hexes := randomizeCells g.terrain_types.length rng g.hexes 0 }

/-- Whether a vertex lies strictly below the query height (specification
side, for the sign-change analysis of `point_in_polygon` in claim C5). -/
def bBelow (y : R3) (v : ℤ × ℤ) : Bool := R3.ltB (R3.ofInt v.2) y

/-- Parity of below/above sign changes along the vertex chain starting at
`p1` (specification side, claim C5). -/
def parityChanges (y : R3) : (ℤ × ℤ) → List (ℤ × ℤ) → Bool
  | _, [] => false
  | p1, p2 :: es => Bool.xor (bBelow y p1 != bBelow y p2) (parityChanges y p2 es)

/-- Cross product of the edge vectors `p → q` and `q → r`; zero exactly when
the three points are collinear (specification side, for claim C9). -/
def crossZ (p q r : ℤ × ℤ) : ℤ :=
  (q.1 - p.1) * (r.2 - q.2) - (q.2 - p.2) * (r.1 - q.1)

/-! ## Basic facts about the exact-arithmetic layer -/

theorem sqrtGo_spec (n : ℕ) : ∀ (f lo hi : ℕ), lo * lo ≤ n → n < hi * hi → lo < hi →
    hi - lo ≤ f + 1 →
    sqrtGo n f lo hi * sqrtGo n f lo hi ≤ n ∧ n < (sqrtGo n f lo hi + 1) * (sqrtGo n f lo hi + 1)
  | 0, lo, hi, h1, h2, h3, h4 => by
    have he : hi = lo + 1 := by omega
    subst he
    simp only [sqrtGo]
    exact ⟨h1, h2⟩
  | f + 1, lo, hi, h1, h2, h3, h4 => by
    simp only [sqrtGo]
    by_cases hc : lo + 1 < hi
    · rw [if_pos hc]
      have hlo : lo < (lo + hi) / 2 := by omega
      have hhi : (lo + hi) / 2 < hi := by omega
      by_cases hmt : ((lo + hi) / 2) * ((lo + hi) / 2) ≤ n
      · rw [if_pos hmt]
        exact sqrtGo_spec n f ((lo + hi) / 2) hi hmt h2 hhi (by omega)
      · rw [if_neg hmt]
        exact sqrtGo_spec n f lo ((lo + hi) / 2) h1 (Nat.lt_of_not_le hmt) hlo (by omega)
    · rw [if_neg hc]
      have he : hi = lo + 1 := by omega
      subst he
      exact ⟨h1, h2⟩

theorem natSqrt_spec (n : ℕ) : natSqrt n * natSqrt n ≤ n ∧ n < (natSqrt n + 1) * (natSqrt n + 1) := by
  have h2 : n < (n + 1) * (n + 1) := by nlinarith
  exact sqrtGo_spec n (n + 1) 0 (n + 1) (by simp) h2 (by omega) (by omega)

namespace R3

theorem sqrt3_nonneg : (0 : ℝ) ≤ Real.sqrt 3 := Real.sqrt_nonneg 3

theorem sq_sqrt3 : Real.sqrt 3 ^ 2 = 3 := Real.sq_sqrt (by norm_num)

theorem one_le_sqrt3 : (1 : ℝ) ≤ Real.sqrt 3 := by
  have h := Real.sqrt_le_sqrt (show (1 : ℝ) ≤ 3 by norm_num)
  rwa [Real.sqrt_one] at h

theorem sqrt3_le_two : Real.sqrt 3 ≤ 2 := by
  have h : Real.sqrt 3 ≤ Real.sqrt 4 := Real.sqrt_le_sqrt (by norm_num)
  have h4 : Real.sqrt 4 = 2 := by
    rw [show (4 : ℝ) = 2 ^ 2 by norm_num, Real.sqrt_sq (by norm_num)]
  linarith

@[simp] theorem toReal_ofInt (z : ℤ) : (ofInt z).toReal = (z : ℝ) := by
  simp [ofInt, toReal]

@[simp] theorem toReal_ofQ (q : ℚ) : (ofQ q).toReal = (q : ℝ) := by
  simp [ofQ, toReal]

@[simp] theorem toReal_add (r s : R3) : (add r s).toReal = r.toReal + s.toReal := by
  simp [add, toReal]; ring

@[simp] theorem toReal_sub (r s : R3) : (sub r s).toReal = r.toReal - s.toReal := by
  simp [sub, toReal]; ring

@[simp] theorem toReal_neg (r : R3) : (neg r).toReal = -r.toReal := by
  simp [neg, toReal]; ring

@[simp] theorem toReal_mulQ (r : R3) (q : ℚ) : (mulQ r q).toReal = r.toReal * (q : ℝ) := by
  simp [mulQ, toReal]; ring

@[simp] theorem toReal_divQ (r : R3) (q : ℚ) : (divQ r q).toReal = r.toReal / (q : ℝ) := by
  simp [divQ, toReal]; ring

theorem nonneg_iff (r : R3) : r.nonneg = true ↔ 0 ≤ r.toReal := by
  have hs := sqrt3_nonneg
  have hsq := sq_sqrt3
  unfold nonneg toReal
  by_cases ha : (0 : ℚ) ≤ r.a <;> by_cases hb : (0 : ℚ) ≤ r.b <;>
    simp only [ha, hb, if_true, if_false, decide_eq_true_eq, if_pos, if_neg]
  · constructor
    · intro _
      have ha' : (0 : ℝ) ≤ (r.a : ℝ) := by exact_mod_cast ha
      have hb' : (0 : ℝ) ≤ (r.b : ℝ) := by exact_mod_cast hb
      positivity
    · intro _; trivial
  · have ha' : (0 : ℝ) ≤ (r.a : ℝ) := by exact_mod_cast ha
    have hb' : (r.b : ℝ) < 0 := by exact_mod_cast (lt_of_not_le hb)
    have hd : (0 : ℝ) ≤ (r.a : ℝ) - (r.b : ℝ) * Real.sqrt 3 := by
      have : (0 : ℝ) ≤ -(r.b : ℝ) * Real.sqrt 3 := mul_nonneg (by linarith) hs
      linarith
    constructor
    · intro h
      have h' : 3 * (r.b : ℝ) ^ 2 ≤ (r.a : ℝ) ^ 2 := by exact_mod_cast h
      by_contra hc
      push_neg at hc
      have hd' : (0 : ℝ) < (r.a : ℝ) - (r.b : ℝ) * Real.sqrt 3 := by
        have h1 : (0 : ℝ) < -(r.b : ℝ) * Real.sqrt 3 :=
          mul_pos (by linarith) (by linarith [one_le_sqrt3])
        linarith
      have hmul := mul_pos (show (0 : ℝ) < -((r.a : ℝ) + (r.b : ℝ) * Real.sqrt 3) by linarith) hd'
      nlinarith
    · intro h
      have hmul : (0 : ℝ) ≤ ((r.a : ℝ) + (r.b : ℝ) * Real.sqrt 3) * ((r.a : ℝ) - (r.b : ℝ) * Real.sqrt 3) := mul_nonneg h hd
      have h' : 3 * (r.b : ℝ) ^ 2 ≤ (r.a : ℝ) ^ 2 := by nlinarith
      exact_mod_cast h'
  · have ha' : (r.a : ℝ) < 0 := by exact_mod_cast (lt_of_not_le ha)
    have hb' : (0 : ℝ) ≤ (r.b : ℝ) := by exact_mod_cast hb
    constructor
    · intro h
      have h' : (r.a : ℝ) ^ 2 ≤ 3 * (r.b : ℝ) ^ 2 := by exact_mod_cast h
      by_contra hc
      push_neg at hc
      have h1 : (0 : ℝ) < -(r.a : ℝ) - (r.b : ℝ) * Real.sqrt 3 := by linarith
      have h2 : (0 : ℝ) < -(r.a : ℝ) + (r.b : ℝ) * Real.sqrt 3 := by
        have : (0 : ℝ) ≤ (r.b : ℝ) * Real.sqrt 3 := mul_nonneg hb' hs
        linarith
      have := mul_pos h1 h2
      nlinarith
    · intro h
      have h2 : (0 : ℝ) ≤ (r.b : ℝ) * Real.sqrt 3 - (r.a : ℝ) := by linarith
      have h3 : (0 : ℝ) ≤ (r.b : ℝ) * Real.sqrt 3 + -(r.a : ℝ) := by linarith
      have hmul := mul_nonneg h2 h3
      have h' : (r.a : ℝ) ^ 2 ≤ 3 * (r.b : ℝ) ^ 2 := by nlinarith
      exact_mod_cast h'
  · have ha' : (r.a : ℝ) < 0 := by exact_mod_cast (lt_of_not_le ha)
    have hb' : (r.b : ℝ) < 0 := by exact_mod_cast (lt_of_not_le hb)
    constructor
    · intro h; exact absurd h (by simp)
    · intro h
      have : (r.b : ℝ) * Real.sqrt 3 ≤ 0 := mul_nonpos_of_nonpos_of_nonneg (le_of_lt hb') hs
      linarith

theorem leB_iff (r s : R3) : leB r s = true ↔ r.toReal ≤ s.toReal := by
  unfold leB
  rw [nonneg_iff, toReal_sub]
  constructor <;> intro h <;> linarith

theorem ltB_iff (r s : R3) : ltB r s = true ↔ r.toReal < s.toReal := by
  unfold ltB
  rw [Bool.not_eq_true', ← Bool.not_eq_true, nonneg_iff, toReal_sub]
  constructor <;> intro h
  · by_contra hc; exact h (by linarith)
  · intro hc; linarith

theorem leB_false_iff (r s : R3) : leB r s = false ↔ s.toReal < r.toReal := by
  rw [← Bool.not_eq_true, leB_iff]; exact not_le

theorem ltB_false_iff (r s : R3) : ltB r s = false ↔ s.toReal ≤ r.toReal := by
  rw [← Bool.not_eq_true, ltB_iff]; exact not_lt

theorem irrational_sqrt3 : Irrational (Real.sqrt 3) := by
  have h := (Nat.prime_three).irrational_sqrt
  simpa using h

theorem sqrt_three_sq_natAbs (s : ℤ) :
    Real.sqrt (3 * (s.natAbs : ℝ) ^ 2) = (s.natAbs : ℝ) * Real.sqrt 3 := by
  rw [show (3 : ℝ) * (s.natAbs : ℝ) ^ 2 = ((s.natAbs : ℝ)) ^ 2 * 3 by ring,
    Real.sqrt_mul (by positivity), Real.sqrt_sq (by positivity)]

theorem isqrt3_eq (s : ℤ) : isqrt3 s = ⌊(s : ℝ) * Real.sqrt 3⌋ := by
  set m := natSqrt (3 * s.natAbs ^ 2) with hm
  have hle : (m : ℝ) ^ 2 ≤ 3 * (s.natAbs : ℝ) ^ 2 := by
    have h := (natSqrt_spec (3 * s.natAbs ^ 2)).1
    rw [← hm] at h
    have h9 : m ^ 2 ≤ 3 * s.natAbs ^ 2 := by nlinarith
    exact_mod_cast h9
  have hlt : 3 * (s.natAbs : ℝ) ^ 2 < ((m : ℝ) + 1) ^ 2 := by
    have h := (natSqrt_spec (3 * s.natAbs ^ 2)).2
    rw [← hm] at h
    have h9 : 3 * s.natAbs ^ 2 < (m + 1) ^ 2 := by nlinarith
    exact_mod_cast h9
  have habs : Real.sqrt (3 * (s.natAbs : ℝ) ^ 2) = (s.natAbs : ℝ) * Real.sqrt 3 :=
    sqrt_three_sq_natAbs s
  have hmle : (m : ℝ) ≤ (s.natAbs : ℝ) * Real.sqrt 3 := by
    rw [← habs]
    exact (Real.le_sqrt (by positivity) (by positivity)).mpr hle
  have hmlt : (s.natAbs : ℝ) * Real.sqrt 3 < (m : ℝ) + 1 := by
    rw [← habs]
    have h1 : (0 : ℝ) < (m : ℝ) + 1 := by positivity
    exact (Real.sqrt_lt' h1).mpr hlt
  by_cases hs : 0 ≤ s
  · have hcast : ((s.natAbs : ℝ)) = (s : ℝ) := by
      rw [Int.cast_natAbs]
      have h1 : |s| = s := abs_of_nonneg hs
      exact_mod_cast h1
    rw [isqrt3, if_pos hs]
    symm
    rw [Int.floor_eq_iff]
    rw [hcast] at hmle hmlt
    push_cast
    exact ⟨hmle, hmlt⟩
  · push_neg at hs
    have hs0 : s ≠ 0 := by omega
    have hcast : ((s.natAbs : ℝ)) = -(s : ℝ) := by
      rw [Int.cast_natAbs]
      have h1 : |s| = -s := abs_of_neg hs
      exact_mod_cast h1
    have hmlt' : (m : ℝ) < (s.natAbs : ℝ) * Real.sqrt 3 := by
      rcases lt_or_eq_of_le hmle with h | h
      · exact h
      · exfalso
        have hsa : (0 : ℝ) < (s.natAbs : ℝ) := by
          have h9 : s.natAbs ≠ 0 := Int.natAbs_ne_zero.mpr hs0
          have h8 : 0 < s.natAbs := Nat.pos_of_ne_zero h9
          exact_mod_cast h8
        have hq : Real.sqrt 3 = ((m : ℚ) / (s.natAbs : ℚ) : ℚ) := by
          push_cast
          rw [eq_div_iff (ne_of_gt hsa)]
          linear_combination -h
        exact irrational_sqrt3 ⟨((m : ℚ) / (s.natAbs : ℚ)), hq.symm⟩
    rw [isqrt3, if_neg (not_le.mpr hs)]
    symm
    have hmul : (s : ℝ) * Real.sqrt 3 = -((s.natAbs : ℝ) * Real.sqrt 3) := by
      rw [hcast]; ring
    rw [hmul, Int.floor_neg]
    have hceil : ⌈(s.natAbs : ℝ) * Real.sqrt 3⌉ = (m : ℤ) + 1 := by
      rw [Int.ceil_eq_iff]
      constructor
      · push_cast; linarith [hmlt']
      · push_cast; linarith [hmlt]
    rw [hceil]
    ring

theorem floor_div_of_pos (x : ℝ) (d : ℤ) (hd : 0 < d) : ⌊x / (d : ℝ)⌋ = ⌊x⌋ / d := by
  have hdne : d ≠ 0 := ne_of_gt hd
  have hone : ⌊x⌋ = d * (⌊x⌋ / d) + ⌊x⌋ % d := (Int.ediv_add_emod _ _).symm
  have hr0 : 0 ≤ ⌊x⌋ % d := Int.emod_nonneg _ hdne
  have hr1 : ⌊x⌋ % d < d := Int.emod_lt_of_pos _ hd
  have hdr : (0 : ℝ) < (d : ℝ) := by exact_mod_cast hd
  rw [Int.floor_eq_iff]
  constructor
  · rw [le_div_iff₀ hdr]
    have h0 : d * (⌊x⌋ / d) ≤ ⌊x⌋ := by linarith [hone, hr0]
    have h1 : ((d : ℝ)) * ((⌊x⌋ / d : ℤ) : ℝ) ≤ (⌊x⌋ : ℝ) := by exact_mod_cast h0
    nlinarith [h1, Int.floor_le x]
  · rw [div_lt_iff₀ hdr]
    have h3 : ⌊x⌋ + 1 ≤ d * (⌊x⌋ / d) + d := by linarith [hone, hr1]
    have h4 : ((⌊x⌋ : ℝ)) + 1 ≤ (d : ℝ) * ((⌊x⌋ / d : ℤ) : ℝ) + (d : ℝ) := by exact_mod_cast h3
    nlinarith [h4, Int.lt_floor_add_one x]

theorem floor_eq (r : R3) : r.floor = ⌊r.toReal⌋ := by
  have hda : (0 : ℤ) < (r.a.den : ℤ) := by exact_mod_cast r.a.pos
  have hdb : (0 : ℤ) < (r.b.den : ℤ) := by exact_mod_cast r.b.pos
  have hd : (0 : ℤ) < (r.a.den : ℤ) * (r.b.den : ℤ) := mul_pos hda hdb
  have hval : r.toReal =
      ((r.a.num * (r.b.den : ℤ) : ℤ) + ((r.b.num * (r.a.den : ℤ) : ℤ) : ℝ) * Real.sqrt 3) /
        (((r.a.den : ℤ) * (r.b.den : ℤ) : ℤ) : ℝ) := by
    rw [toReal]
    rw [show ((r.a : ℝ)) = (r.a.num : ℝ) / (r.a.den : ℝ) by
      rw [← Rat.cast_intCast, ← Rat.cast_natCast, ← Rat.cast_div, Rat.num_div_den]]
    rw [show ((r.b : ℝ)) = (r.b.num : ℝ) / (r.b.den : ℝ) by
      rw [← Rat.cast_intCast, ← Rat.cast_natCast, ← Rat.cast_div, Rat.num_div_den]]
    have ha0 : ((r.a.den : ℝ)) ≠ 0 := by positivity
    have hb0 : ((r.b.den : ℝ)) ≠ 0 := by positivity
    push_cast
    field_simp
    ring
  rw [floor, hval, floor_div_of_pos _ _ hd]
  congr 1
  rw [show ((r.a.num * (r.b.den : ℤ) : ℤ) : ℝ) + ((r.b.num * (r.a.den : ℤ) : ℤ) : ℝ) * Real.sqrt 3
      = ((r.a.num * (r.b.den : ℤ) : ℤ) : ℝ) + ((r.b.num * (r.a.den : ℤ) : ℝ)) * Real.sqrt 3 by
    push_cast; ring]
  rw [show ((r.b.num * (r.a.den : ℤ) : ℝ)) = (((r.b.num * (r.a.den : ℤ) : ℤ)) : ℝ) by push_cast; ring]
  rw [Int.floor_int_add, isqrt3_eq]

theorem trunc_eq (r : R3) : trunc r = truncReal r.toReal := by
  rw [trunc, truncReal]
  by_cases h : r.nonneg = true
  · rw [if_pos h, if_pos ((nonneg_iff r).mp h), floor_eq]
  · have h' : ¬0 ≤ r.toReal := fun hc => h ((nonneg_iff r).mpr hc)
    rw [if_neg h, if_neg h', floor_eq, toReal_neg]

theorem truncReal_of_nonneg {x : ℝ} (h : 0 ≤ x) : truncReal x = ⌊x⌋ := by
  rw [truncReal, if_pos h]

theorem floor_le_truncReal (x : ℝ) : ⌊x⌋ ≤ truncReal x := by
  rw [truncReal]
  by_cases h : 0 ≤ x
  · rw [if_pos h]
  · rw [if_neg h, Int.floor_neg]
    simp only [neg_neg]
    exact Int.floor_le_ceil x

theorem truncReal_mono {x y : ℝ} (h : x ≤ y) : truncReal x ≤ truncReal y := by
  rw [truncReal, truncReal]
  by_cases hx : 0 ≤ x <;> by_cases hy : 0 ≤ y
  · rw [if_pos hx, if_pos hy]; exact Int.floor_mono h
  · exact absurd (le_trans hx h) hy
  · rw [if_neg hx, if_pos hy, Int.floor_neg, neg_neg]
    have h1 : ⌈x⌉ ≤ 0 := Int.ceil_le.mpr (by exact_mod_cast le_of_lt (lt_of_not_le hx))
    have h2 : (0 : ℤ) ≤ ⌊y⌋ := Int.floor_nonneg.mpr hy
    omega
  · rw [if_neg hx, if_neg hy, Int.floor_neg, Int.floor_neg, neg_neg, neg_neg]
    exact Int.ceil_mono h

end R3

/-! ## Structural lemmas about grid construction -/

theorem buildCells_length (size border : ℕ) (o : String) (num : ℕ) (rng : ℕ → ℕ)
    (look : ℕ → ℕ → Option ℤ) : ∀ (l : List (ℕ × ℕ)) (k : ℕ),
    (buildCells size border o num rng look l k).length = l.length
  | [], _ => rfl
  | (c, r) :: rest, k => by
    unfold buildCells
    cases hl : look c r with
    | some t => simp [buildCells_length size border o num rng look rest k]
    | none => simp [buildCells_length size border o num rng look rest (k + 1)]

theorem coordList_length (cols rows : ℕ) : (coordList cols rows).length = cols * rows := by
  induction cols with
  | zero => simp [coordList]
  | succ n ih =>
    unfold coordList at ih ⊢
    rw [List.range_succ, List.flatMap_append, List.length_append, ih]
    simp [Nat.succ_mul]

theorem buildCells_mem_fields (size border : ℕ) (o : String) (num : ℕ) (rng : ℕ → ℕ)
    (look : ℕ → ℕ → Option ℤ) : ∀ (l : List (ℕ × ℕ)) (k : ℕ),
    ∀ h ∈ buildCells size border o num rng look l k,
      h.size = size ∧ h.border = border ∧ h.orientation = o
  | [], _, h, hmem => by simp [buildCells] at hmem
  | (c, r) :: rest, k, h, hmem => by
    unfold buildCells at hmem
    cases hl : look c r with
    | some t =>
      rw [hl] at hmem
      rcases List.mem_cons.mp hmem with heq | htail
      · subst heq; exact ⟨rfl, rfl, rfl⟩
      · exact buildCells_mem_fields size border o num rng look rest k h htail
    | none =>
      rw [hl] at hmem
      rcases List.mem_cons.mp hmem with heq | htail
      · subst heq; exact ⟨rfl, rfl, rfl⟩
      · exact buildCells_mem_fields size border o num rng look rest (k + 1) h htail

/-! ## Claim C2 -/

/-- C2: for all `col, row ≥ 0`, `size > 0` and either orientation, the
cell-center computation is a total, deterministic function equal to the spec
formulas with `offset = 10`: flat gives
`x = size·1.5·col + size + 10`, `y = size·√3·(row + 0.5·(col mod 2)) + size + 10`;
pointy swaps the roles of the axes.  (Proved for every `size : ℕ`, which
includes every `size > 0`; totality and determinism are inherent in the
function embedding.) -/
theorem c2_center_matches_spec_formulas (col row size : ℕ) :
    ((calculate_center col row size "Flat").1.toReal
        = (size : ℝ) * 1.5 * (col : ℝ) + (size : ℝ) + 10 ∧
     (calculate_center col row size "Flat").2.toReal
        = (size : ℝ) * Real.sqrt 3 * ((row : ℝ) + 0.5 * ((col % 2 : ℕ) : ℝ))
            + (size : ℝ) + 10) ∧
    ((calculate_center col row size "Pointy").1.toReal
        = (size : ℝ) * Real.sqrt 3 * ((col : ℝ) + 0.5 * ((row % 2 : ℕ) : ℝ))
            + (size : ℝ) + 10 ∧
     (calculate_center col row size "Pointy").2.toReal
        = (size : ℝ) * 1.5 * (row : ℝ) + (size : ℝ) + 10) := by
  constructor
  · rw [calculate_center, if_pos rfl]
    constructor
    · rw [R3.toReal_ofQ]
      push_cast
      rw [show (1.5 : ℝ) = 3 / 2 by norm_num]
      ring
    · rw [R3.toReal]
      push_cast
      rw [show (0.5 : ℝ) = 1 / 2 by norm_num]
      ring
  · rw [calculate_center, if_neg (by decide)]
    constructor
    · rw [R3.toReal]
      push_cast
      rw [show (0.5 : ℝ) = 1 / 2 by norm_num]
      ring
    · rw [R3.toReal_ofQ]
      push_cast
      rw [show (1.5 : ℝ) = 3 / 2 by norm_num]
      ring

/-! ## Claim C10 -/

/-- C10: for every orientation string other than exactly `"Flat"` (including
`"flat"`, `"Pointy"`, `"pointy"`, or any other value), a `Hex` computes its
center and vertices with the pointy-top formulas; the orientation is never
validated and no error is raised (the embedding is a total function on all
strings). -/
theorem c10_nonflat_orientation_is_pointy (col row size : ℕ) (t : ℤ) (b : ℕ)
    (o : String) (s2 : ℕ) (h : o ≠ "Flat") :
    calculate_center col row size o = calculate_center col row size "Pointy" ∧
    (Hex.make col row size t b o).get_vertices s2
      = (Hex.make col row size t b "Pointy").get_vertices s2 := by
  have hc : calculate_center col row size o = calculate_center col row size "Pointy" := by
    rw [calculate_center, calculate_center, if_neg h, if_neg (by decide)]
  refine ⟨hc, ?_⟩
  unfold Hex.get_vertices Hex.make
  simp only [hc]
  apply List.map_congr_left
  intro i _
  rw [if_neg h, if_neg (by decide : ¬("Pointy" = "Flat"))]

/-- Witness for C10 at the concrete orientation `"flat"`. -/
theorem c10_nonflat_orientation_is_pointy_witness :
    (("flat" : String) ≠ "Flat") ∧
    (calculate_center 1 2 5 "flat" = calculate_center 1 2 5 "Pointy" ∧
     (Hex.make 1 2 5 0 1 "flat").get_vertices 5
       = (Hex.make 1 2 5 0 1 "Pointy").get_vertices 5) :=
  ⟨by decide, c10_nonflat_orientation_is_pointy 1 2 5 0 1 "flat" 5 (by decide)⟩

/-! ## Claim C8 (corrected) -/

/-- C8 counterexample: the claim says construction with `cols ≤ 0`,
`rows ≤ 0` or `size ≤ 0` "fails rather than succeeding".  It does not: the
code performs no validation.  `HexGrid.__init__` with `cols = 0` succeeds and
yields an empty cell list, and with `size = 0` it succeeds, builds all
`3·3 = 9` cells, and the degenerate size propagates into the geometry (every
center collapses to `(10, 10)`). -/
theorem c8_counterexample :
    (HexGrid.init 0 3 5 0 "Flat" DEFAULT_TERRAIN_TYPES (fun k => k)).hexes = [] ∧
    (HexGrid.init 3 3 0 0 "Flat" DEFAULT_TERRAIN_TYPES (fun k => k)).hexes.length = 9 ∧
    (∀ h ∈ (HexGrid.init 3 3 0 0 "Flat" DEFAULT_TERRAIN_TYPES (fun k => k)).hexes,
      h.center_x = R3.ofQ 10 ∧ h.center_y = R3.ofQ 10) := by
  refine ⟨by decide, by decide, ?_⟩
  decide

/-- C8 amended: invalid construction parameters are NOT rejected at the
boundary.  Construction is a total operation for every parameter value:
`cols = 0` (or `rows = 0`) silently yields an empty grid, and `size = 0`
silently propagates into the geometry computations, building `cols·rows`
cells of size `0` (in the application only the UI slider ranges keep such
values from arising). -/
theorem c8_amended_no_rejection (cols rows size border : ℕ) (o : String)
    (tts : List TerrainType) (rng : ℕ → ℕ) :
    ((HexGrid.init 0 rows size border o tts rng).hexes = []) ∧
    ((HexGrid.init cols rows size border o tts rng).hexes.length = cols * rows) ∧
    (∀ h ∈ (HexGrid.init cols rows 0 border o tts rng).hexes, h.size = 0) := by
  refine ⟨?_, ?_, ?_⟩
  · simp [HexGrid.init, create_hex_grid, coordList, buildCells]
  · rw [HexGrid.init]
    simp only [create_hex_grid]
    rw [buildCells_length, coordList_length]
  · intro h hmem
    rw [HexGrid.init] at hmem
    simp only [create_hex_grid] at hmem
    exact (buildCells_mem_fields _ _ _ _ _ _ _ _ h hmem).1

/-! ## Claim C1 -/

theorem pipStep_horizontal_id (x y : R3) (p1 p2 : ℤ × ℤ) (s : PipState)
    (h : p1.2 = p2.2) : pipStep x y p1 p2 s = some s := by
  unfold pipStep
  by_cases hcond : (R3.ltB (R3.ofInt (min p1.2 p2.2)) y &&
      R3.leB y (R3.ofInt (max p1.2 p2.2)) && R3.leB x (R3.ofInt (max p1.1 p2.1))) = true
  · exfalso
    rw [Bool.and_eq_true, Bool.and_eq_true] at hcond
    obtain ⟨⟨h1, h2⟩, _⟩ := hcond
    rw [R3.ltB_iff, R3.toReal_ofInt] at h1
    rw [R3.leB_iff, R3.toReal_ofInt] at h2
    simp only [h, min_self, max_self] at h1 h2
    linarith
  · simp only [Bool.not_eq_true] at hcond
    simp [hcond]

theorem pipStep_isSome (x y : R3) (p1 p2 : ℤ × ℤ) (s : PipState) :
    (pipStep x y p1 p2 s).isSome = true := by
  by_cases h : p1.2 = p2.2
  · rw [pipStep_horizontal_id x y p1 p2 s h]; rfl
  · unfold pipStep
    simp only [if_pos h, ne_eq, h, not_false_iff, if_true]
    split
    · split
      · rfl
      · split <;> rfl
    · rfl

theorem pipLoop_isSome (x y : R3) : ∀ (es : List (ℤ × ℤ)) (p1 : ℤ × ℤ) (s : PipState),
    (pipLoop x y es p1 s).isSome = true
  | [], _, _ => rfl
  | p2 :: es, p1, s => by
    have hs := pipStep_isSome x y p1 p2 s
    unfold pipLoop
    cases hstep : pipStep x y p1 p2 s with
    | none => rw [hstep] at hs; simp at hs
    | some s2 =>
      simp only [hstep]
      exact pipLoop_isSome x y es p2 s2

/-- C1: `point_in_polygon` follows the reference edge-case policy: a
horizontal edge (`p1y == p2y`) never changes the loop state (in particular it
never flips the parity), and `xinters` is compared against `x` only for
non-horizontal edges, where it has just been assigned — so no stale or
uninitialized `xinters` is ever consulted, and the whole test never fails on
any nonempty vertex list (`isSome`). -/
theorem c1_ray_casting_edge_policy (p : R3 × R3) (vs : List (ℤ × ℤ)) (hne : vs ≠ []) :
    (point_in_polygon p vs).isSome = true ∧
    (∀ (p1 p2 : ℤ × ℤ) (s : PipState), p1.2 = p2.2 →
      pipStep p.1 p.2 p1 p2 s = some s) := by
  constructor
  · match vs, hne with
    | v0 :: rest, _ =>
      rw [point_in_polygon]
      have hs := pipLoop_isSome p.1 p.2 (rest ++ [v0]) v0 ⟨false, none⟩
      cases hloop : pipLoop p.1 p.2 (rest ++ [v0]) v0 ⟨false, none⟩ with
      | none => rw [hloop] at hs; simp at hs
      | some s2 => rfl
  · intro p1 p2 s h
    exact pipStep_horizontal_id p.1 p.2 p1 p2 s h

/-- Witness for C1 on a concrete point and vertex list. -/
theorem c1_ray_casting_edge_policy_witness :
    ([((0 : ℤ), (0 : ℤ))] ≠ ([] : List (ℤ × ℤ))) ∧
    ((point_in_polygon (R3.ofInt 0, R3.ofInt 0) [((0 : ℤ), (0 : ℤ))]).isSome = true ∧
     (∀ (p1 p2 : ℤ × ℤ) (s : PipState), p1.2 = p2.2 →
       pipStep (R3.ofInt 0, R3.ofInt 0).1 (R3.ofInt 0, R3.ofInt 0).2 p1 p2 s = some s)) :=
  ⟨by decide, c1_ray_casting_edge_policy (R3.ofInt 0, R3.ofInt 0) [((0 : ℤ), (0 : ℤ))] (by decide)⟩

/-! ## Terrain lookup lemmas -/

theorem coordList_nodup (cols rows : ℕ) : (coordList cols rows).Nodup := by
  rw [coordList, List.nodup_flatMap]
  constructor
  · intro c _
    exact (List.nodup_range rows).map (fun a b hab => by simpa using hab)
  · refine List.Pairwise.imp ?_ (List.nodup_range cols)
    intro a b hab x hx1 hx2
    simp only [List.mem_map] at hx1 hx2
    obtain ⟨r1, _, heq1⟩ := hx1
    obtain ⟨r2, _, heq2⟩ := hx2
    rw [← heq1] at heq2
    exact hab (congrArg Prod.fst heq2).symm

theorem mem_coordList (cols rows c r : ℕ) :
    (c, r) ∈ coordList cols rows ↔ c < cols ∧ r < rows := by
  simp only [coordList, List.mem_flatMap, List.mem_map, List.mem_range]
  constructor
  · rintro ⟨a, ha, b, hb, heq⟩
    injection heq with h1 h2
    subst h1
    subst h2
    exact ⟨ha, hb⟩
  · rintro ⟨hc, hr⟩
    exact ⟨c, hc, r, hr, rfl⟩

theorem buildCells_coords (size border : ℕ) (o : String) (num : ℕ) (rng : ℕ → ℕ)
    (look : ℕ → ℕ → Option ℤ) : ∀ (l : List (ℕ × ℕ)) (k : ℕ),
    (buildCells size border o num rng look l k).map (fun h => (h.col, h.row)) = l
  | [], _ => rfl
  | (c, r) :: rest, k => by
    unfold buildCells
    cases hl : look c r with
    | some t => simp [Hex.make, buildCells_coords size border o num rng look rest k]
    | none => simp [Hex.make, buildCells_coords size border o num rng look rest (k + 1)]

theorem buildCells_mem_coords (size border : ℕ) (o : String) (num : ℕ) (rng : ℕ → ℕ)
    (look : ℕ → ℕ → Option ℤ) (l : List (ℕ × ℕ)) (k : ℕ) (h : Hex)
    (hmem : h ∈ buildCells size border o num rng look l k) : (h.col, h.row) ∈ l := by
  rw [← buildCells_coords size border o num rng look l k]
  exact List.mem_map_of_mem _ hmem

theorem terrainLookup_cons_ne (h : Hex) (G : List Hex) (c r : ℕ)
    (hne : ¬(h.col = c ∧ h.row = r)) :
    terrainLookup (h :: G) c r = terrainLookup G c r := by
  unfold terrainLookup
  rw [List.reverse_cons, List.find?_append]
  have hp : ¬((h.col == c && h.row == r) = true) := by
    simp only [Bool.and_eq_true, beq_iff_eq]
    exact hne
  have hsingle : List.find? (fun g => g.col == c && g.row == r) [h] = none := by
    rw [List.find?_eq_none]
    intro x hx
    obtain rfl := List.mem_singleton.mp hx
    exact hp
  rw [hsingle]
  simp

theorem terrainLookup_cons_self (h : Hex) (G : List Hex)
    (hnotin : ∀ g ∈ G, ¬(g.col = h.col ∧ g.row = h.row)) :
    terrainLookup (h :: G) h.col h.row = some h.terrain_index := by
  unfold terrainLookup
  rw [List.reverse_cons, List.find?_append]
  have hnone : G.reverse.find? (fun g => g.col == h.col && g.row == h.row) = none := by
    rw [List.find?_eq_none]
    intro g hg
    simp only [Bool.and_eq_true, beq_iff_eq]
    exact hnotin g (List.mem_reverse.mp hg)
  rw [hnone, List.find?_cons_of_pos _ (by simp)]
  simp

theorem terrainLookup_build_not_mem (size border : ℕ) (o : String) (num : ℕ) (rng : ℕ → ℕ)
    (look : ℕ → ℕ → Option ℤ) (l : List (ℕ × ℕ)) (k : ℕ) (c r : ℕ)
    (hnm : (c, r) ∉ l) :
    terrainLookup (buildCells size border o num rng look l k) c r = none := by
  unfold terrainLookup
  rw [List.find?_eq_none.mpr]
  · rfl
  · intro g hg
    have hcoords := buildCells_mem_coords size border o num rng look l k g
      (List.mem_reverse.mp hg)
    simp only [Bool.and_eq_true, beq_iff_eq]
    rintro ⟨h1, h2⟩
    rw [h1, h2] at hcoords
    exact hnm hcoords

theorem terrainLookup_build_of_look (size border : ℕ) (o : String) (num : ℕ) (rng : ℕ → ℕ)
    (look : ℕ → ℕ → Option ℤ) : ∀ (l : List (ℕ × ℕ)) (k : ℕ) (c r : ℕ) (t : ℤ),
    l.Nodup → (c, r) ∈ l → look c r = some t →
    terrainLookup (buildCells size border o num rng look l k) c r = some t
  | [], _, _, _, _, _, hmem, _ => absurd hmem (List.not_mem_nil _)
  | (c0, r0) :: rest, k, c, r, t, hnd, hmem, hl => by
    by_cases hhead : (c0, r0) = (c, r)
    · injection hhead with hh1 hh2
      subst hh1
      subst hh2
      have hnotin : (c0, r0) ∉ rest := (List.nodup_cons.mp hnd).1
      unfold buildCells
      rw [hl]
      have := terrainLookup_cons_self (Hex.make c0 r0 size t border o)
        (buildCells size border o num rng look rest k) ?_
      · exact this
      · intro g hg hco
        apply hnotin
        have hcoords := buildCells_mem_coords size border o num rng look rest k g hg
        have hcol : (Hex.make c0 r0 size t border o).col = c0 := rfl
        have hrow : (Hex.make c0 r0 size t border o).row = r0 := rfl
        rw [hcol] at hco
        rw [hrow] at hco
        rw [← hco.1, ← hco.2]
        exact hcoords
    · have hmem' : (c, r) ∈ rest := by
        rcases List.mem_cons.mp hmem with heq | ht
        · exact absurd heq.symm hhead
        · exact ht
      have hne : ¬(c0 = c ∧ r0 = r) := by
        rintro ⟨rfl, rfl⟩
        exact hhead rfl
      unfold buildCells
      cases hl0 : look c0 r0 with
      | some t0 =>
        rw [terrainLookup_cons_ne _ _ _ _ hne]
        exact terrainLookup_build_of_look size border o num rng look rest k c r t
          (List.nodup_cons.mp hnd).2 hmem' hl
      | none =>
        rw [terrainLookup_cons_ne _ _ _ _ hne]
        exact terrainLookup_build_of_look size border o num rng look rest (k + 1) c r t
          (List.nodup_cons.mp hnd).2 hmem' hl

theorem terrainLookup_build_of_fresh (size border : ℕ) (o : String) (num : ℕ) (rng : ℕ → ℕ)
    (look : ℕ → ℕ → Option ℤ) : ∀ (l : List (ℕ × ℕ)) (k : ℕ) (c r : ℕ),
    l.Nodup → (c, r) ∈ l → look c r = none →
    ∃ j : ℕ, terrainLookup (buildCells size border o num rng look l k) c r
      = some ((rng j % num : ℕ) : ℤ)
  | [], _, _, _, _, hmem, _ => absurd hmem (List.not_mem_nil _)
  | (c0, r0) :: rest, k, c, r, hnd, hmem, hl => by
    by_cases hhead : (c0, r0) = (c, r)
    · injection hhead with hh1 hh2
      subst hh1
      subst hh2
      have hnotin : (c0, r0) ∉ rest := (List.nodup_cons.mp hnd).1
      refine ⟨k, ?_⟩
      unfold buildCells
      rw [hl]
      have := terrainLookup_cons_self (Hex.make c0 r0 size ((rng k % num : ℕ) : ℤ) border o)
        (buildCells size border o num rng look rest (k + 1)) ?_
      · exact this
      · intro g hg hco
        apply hnotin
        have hcoords := buildCells_mem_coords size border o num rng look rest (k + 1) g hg
        have hcol : (Hex.make c0 r0 size ((rng k % num : ℕ) : ℤ) border o).col = c0 := rfl
        have hrow : (Hex.make c0 r0 size ((rng k % num : ℕ) : ℤ) border o).row = r0 := rfl
        rw [hcol] at hco
        rw [hrow] at hco
        rw [← hco.1, ← hco.2]
        exact hcoords
    · have hmem' : (c, r) ∈ rest := by
        rcases List.mem_cons.mp hmem with heq | ht
        · exact absurd heq.symm hhead
        · exact ht
      have hne : ¬(c0 = c ∧ r0 = r) := by
        rintro ⟨rfl, rfl⟩
        exact hhead rfl
      unfold buildCells
      cases hl0 : look c0 r0 with
      | some t0 =>
        rw [terrainLookup_cons_ne _ _ _ _ hne]
        exact terrainLookup_build_of_fresh size border o num rng look rest k c r
          (List.nodup_cons.mp hnd).2 hmem' hl
      | none =>
        rw [terrainLookup_cons_ne _ _ _ _ hne]
        exact terrainLookup_build_of_fresh size border o num rng look rest (k + 1) c r
          (List.nodup_cons.mp hnd).2 hmem' hl

/-- Unfolding lemma: a preserved coordinate at the head of the build. -/
theorem buildCells_cons_some (size border : ℕ) (o : String) (num : ℕ) (rng : ℕ → ℕ)
    (look : ℕ → ℕ → Option ℤ) (rest : List (ℕ × ℕ)) (c r k : ℕ) (t : ℤ)
    (hl : look c r = some t) :
    buildCells size border o num rng look ((c, r) :: rest) k
      = Hex.make c r size t border o :: buildCells size border o num rng look rest k := by
  simp only [buildCells, hl]

/-- Unfolding lemma: a fresh coordinate at the head of the build. -/
theorem buildCells_cons_none (size border : ℕ) (o : String) (num : ℕ) (rng : ℕ → ℕ)
    (look : ℕ → ℕ → Option ℤ) (rest : List (ℕ × ℕ)) (c r k : ℕ)
    (hl : look c r = none) :
    buildCells size border o num rng look ((c, r) :: rest) k
      = Hex.make c r size ((rng k % num : ℕ) : ℤ) border o ::
          buildCells size border o num rng look rest (k + 1) := by
  simp only [buildCells, hl]

/-- If a second lookup answers on every coordinate of `l` exactly what the
terrain dictionary of the first build holds there, rebuilding reproduces the
first build cell for cell (no random draw is ever consumed). -/
theorem buildCells_eq_of_lookup (size border : ℕ) (o : String) (num num2 : ℕ)
    (rng rng2 : ℕ → ℕ) (look look2 : ℕ → ℕ → Option ℤ) :
    ∀ (l : List (ℕ × ℕ)) (k k2 : ℕ), l.Nodup →
    (∀ p ∈ l, look2 p.1 p.2
        = terrainLookup (buildCells size border o num rng look l k) p.1 p.2) →
    buildCells size border o num2 rng2 look2 l k2
      = buildCells size border o num rng look l k
  | [], _, _, _, _ => rfl
  | (c, r) :: rest, k, k2, hnd, hlook2 => by
    have hnotin : (c, r) ∉ rest := (List.nodup_cons.mp hnd).1
    have hnd' := (List.nodup_cons.mp hnd).2
    have hself : ∀ t0 : ℤ, ∀ G : List Hex,
        (∀ g ∈ G, (g.col, g.row) ∈ rest) →
        terrainLookup (Hex.make c r size t0 border o :: G) c r = some t0 := by
      intro t0 G hG
      have := terrainLookup_cons_self (Hex.make c r size t0 border o) G ?_
      · exact this
      · intro g hg hco
        apply hnotin
        have hcol : (Hex.make c r size t0 border o).col = c := rfl
        have hrow : (Hex.make c r size t0 border o).row = r := rfl
        rw [hcol] at hco
        rw [hrow] at hco
        rw [← hco.1, ← hco.2]
        exact hG g hg
    have htail : ∀ t0 : ℤ, ∀ k' : ℕ,
        buildCells size border o num rng look ((c, r) :: rest) k
          = Hex.make c r size t0 border o :: buildCells size border o num rng look rest k' →
        ∀ p ∈ rest, look2 p.1 p.2
          = terrainLookup (buildCells size border o num rng look rest k') p.1 p.2 := by
      intro t0 k' hEq p hp
      have h2 := hlook2 p (List.mem_cons_of_mem _ hp)
      rw [hEq] at h2
      rw [terrainLookup_cons_ne] at h2
      · exact h2
      · have hcol : (Hex.make c r size t0 border o).col = c := rfl
        have hrow : (Hex.make c r size t0 border o).row = r := rfl
        rw [hcol, hrow]
        rintro ⟨h3, h4⟩
        apply hnotin
        rw [h3, h4]
        exact hp
    cases hl : look c r with
    | some t =>
      have hG := buildCells_cons_some size border o num rng look rest c r k t hl
      have hlk : look2 c r = some t := by
        have h0 := hlook2 (c, r) (List.mem_cons_self _ _)
        rw [h0, hG]
        exact hself t _
          (fun g hg => buildCells_mem_coords size border o num rng look rest k g hg)
      have hL := buildCells_cons_some size border o num2 rng2 look2 rest c r k2 t hlk
      rw [hG, hL]
      rw [buildCells_eq_of_lookup size border o num num2 rng rng2 look look2 rest k k2 hnd'
        (htail t k hG)]
    | none =>
      have hG := buildCells_cons_none size border o num rng look rest c r k hl
      have hlk : look2 c r = some ((rng k % num : ℕ) : ℤ) := by
        have h0 := hlook2 (c, r) (List.mem_cons_self _ _)
        rw [h0, hG]
        exact hself _ _
          (fun g hg => buildCells_mem_coords size border o num rng look rest (k + 1) g hg)
      have hL := buildCells_cons_some size border o num2 rng2 look2 rest c r k2
        ((rng k % num : ℕ) : ℤ) hlk
      rw [hG, hL]
      rw [buildCells_eq_of_lookup size border o num num2 rng rng2 look look2 rest (k + 1) k2
        hnd' (htail _ (k + 1) hG)]

/-! ## Claim C3 -/

/-- C3: building a grid and then calling `rebuild_grid` with no overrides
(all parameters `None`) yields a grid with an identical `terrain_index` at
every `(col, row)` coordinate — in fact an identical cell list, for every
choice of the random streams (the rebuild consumes no random draw because
every coordinate is found in the preserved-terrain dictionary). -/
theorem c3_rebuild_without_overrides_preserves_terrain
    (cols rows size border : ℕ) (o : String) (tts : List TerrainType)
    (rng rng2 : ℕ → ℕ) :
    ∀ c r : ℕ,
      terrainLookup ((HexGrid.init cols rows size border o tts rng).rebuild_grid
          none none none none none rng2).hexes c r
        = terrainLookup (HexGrid.init cols rows size border o tts rng).hexes c r := by
  intro c r
  have hhex : ((HexGrid.init cols rows size border o tts rng).rebuild_grid
      none none none none none rng2).hexes
      = (HexGrid.init cols rows size border o tts rng).hexes := by
    show buildCells size border o tts.length rng2
        (fun c r => terrainLookup (HexGrid.init cols rows size border o tts rng).hexes c r)
        (coordList cols rows) 0
      = buildCells size border o tts.length rng (fun _ _ => none) (coordList cols rows) 0
    exact buildCells_eq_of_lookup size border o tts.length tts.length rng rng2
      (fun _ _ => none) _ (coordList cols rows) 0 0 (coordList_nodup cols rows)
      (fun p _ => rfl)
  rw [hhex]

/-! ## Claim C4 -/

/-- C4: `create_hex_grid` copies `terrain_index` unchanged for every
`(col, row)` present in the previous cell list (last-inserted wins, as in
the Python dict) and within the new bounds; coordinates absent from the
previous list get exactly the next fresh draw `rng j % num`, which lies in
`[0, num)`; coordinates outside the new bounds are dropped (no cell, lookup
`none`).  The embedding is pure, so the previous list is never mutated by
construction. -/
theorem c4_create_grid_preserves_and_drops (cols rows size border : ℕ) (o : String)
    (num : ℕ) (prev : List Hex) (rng : ℕ → ℕ) (hnum : 0 < num) :
    (∀ c r : ℕ, ∀ t : ℤ, c < cols → r < rows → terrainLookup prev c r = some t →
      terrainLookup (create_hex_grid cols rows size border o num (some prev) rng) c r
        = some t) ∧
    (∀ c r : ℕ, c < cols → r < rows → terrainLookup prev c r = none →
      ∃ j : ℕ,
        terrainLookup (create_hex_grid cols rows size border o num (some prev) rng) c r
          = some ((rng j % num : ℕ) : ℤ) ∧
        (0 : ℤ) ≤ ((rng j % num : ℕ) : ℤ) ∧ ((rng j % num : ℕ) : ℤ) < num) ∧
    (∀ c r : ℕ, cols ≤ c ∨ rows ≤ r →
      terrainLookup (create_hex_grid cols rows size border o num (some prev) rng) c r
        = none) := by
  refine ⟨?_, ?_, ?_⟩
  · intro c r t hc hr hprev
    exact terrainLookup_build_of_look size border o num rng _ (coordList cols rows) 0 c r t
      (coordList_nodup cols rows) ((mem_coordList cols rows c r).mpr ⟨hc, hr⟩) hprev
  · intro c r hc hr hprev
    obtain ⟨j, hj⟩ := terrainLookup_build_of_fresh size border o num rng _
      (coordList cols rows) 0 c r (coordList_nodup cols rows)
      ((mem_coordList cols rows c r).mpr ⟨hc, hr⟩) hprev
    refine ⟨j, hj, by positivity, ?_⟩
    have hmod : rng j % num < num := Nat.mod_lt _ hnum
    exact_mod_cast hmod
  · intro c r hout
    apply terrainLookup_build_not_mem
    rw [mem_coordList]
    rintro ⟨hc, hr⟩
    rcases hout with h | h
    · omega
    · omega

/-- Witness for C4 on a concrete previous list and dimensions. -/
theorem c4_create_grid_preserves_and_drops_witness :
    (0 < 2) ∧
    ((∀ c r : ℕ, ∀ t : ℤ, c < 2 → r < 2 →
        terrainLookup [Hex.make 0 0 4 1 0 "Flat"] c r = some t →
        terrainLookup (create_hex_grid 2 2 4 0 "Flat" 2
          (some [Hex.make 0 0 4 1 0 "Flat"]) (fun k => k)) c r = some t) ∧
     (∀ c r : ℕ, c < 2 → r < 2 →
        terrainLookup [Hex.make 0 0 4 1 0 "Flat"] c r = none →
        ∃ j : ℕ,
          terrainLookup (create_hex_grid 2 2 4 0 "Flat" 2
            (some [Hex.make 0 0 4 1 0 "Flat"]) (fun k => k)) c r
            = some (((fun k => k) j % 2 : ℕ) : ℤ) ∧
          (0 : ℤ) ≤ (((fun k => k) j % 2 : ℕ) : ℤ) ∧
          (((fun k => k) j % 2 : ℕ) : ℤ) < 2) ∧
     (∀ c r : ℕ, 2 ≤ c ∨ 2 ≤ r →
        terrainLookup (create_hex_grid 2 2 4 0 "Flat" 2
          (some [Hex.make 0 0 4 1 0 "Flat"]) (fun k => k)) c r = none)) :=
  ⟨by decide, c4_create_grid_preserves_and_drops 2 2 4 0 "Flat" 2
    [Hex.make 0 0 4 1 0 "Flat"] (fun k => k) (by decide)⟩

/-! ## Claim C7 (corrected) -/

/-- C7 counterexample: the palette-validity invariant is NOT preserved by a
rebuild whose palette size is smaller than before.  A previous cell with
`terrain_index = 5` (valid for the default 7-entry palette) is copied
unchanged by `create_hex_grid` when rebuilt with `num_terrain_types = 2`,
leaving a dangling index `5 ≥ 2`. -/
theorem c7_counterexample :
    ¬ (∀ h ∈ create_hex_grid 1 1 1 0 "Flat" 2
          (some [Hex.make 0 0 1 5 0 "Flat"]) (fun _ => 0),
        0 ≤ h.terrain_index ∧ h.terrain_index < 2) := by
  decide

theorem buildCells_terrain_range (size border : ℕ) (o : String) (num : ℕ) (rng : ℕ → ℕ)
    (look : ℕ → ℕ → Option ℤ) (hnum : 0 < num)
    (hlook : ∀ c r : ℕ, ∀ t : ℤ, look c r = some t → 0 ≤ t ∧ t < num) :
    ∀ (l : List (ℕ × ℕ)) (k : ℕ),
    ∀ h ∈ buildCells size border o num rng look l k,
      0 ≤ h.terrain_index ∧ h.terrain_index < num
  | [], _, h, hmem => absurd hmem (List.not_mem_nil _)
  | (c, r) :: rest, k, h, hmem => by
    cases hl : look c r with
    | some t =>
      rw [buildCells_cons_some size border o num rng look rest c r k t hl] at hmem
      rcases List.mem_cons.mp hmem with heq | htail
      · subst heq
        exact hlook c r t hl
      · exact buildCells_terrain_range size border o num rng look hnum hlook rest k h htail
    | none =>
      rw [buildCells_cons_none size border o num rng look rest c r k hl] at hmem
      rcases List.mem_cons.mp hmem with heq | htail
      · subst heq
        have hti : (Hex.make c r size ((rng k % num : ℕ) : ℤ) border o).terrain_index
            = ((rng k % num : ℕ) : ℤ) := rfl
        rw [hti]
        refine ⟨by positivity, ?_⟩
        have hmod : rng k % num < num := Nat.mod_lt _ hnum
        exact_mod_cast hmod
      · exact buildCells_terrain_range size border o num rng look hnum hlook rest (k + 1) h
          htail

theorem terrainLookup_some_mem (prev : List Hex) (c r : ℕ) (t : ℤ)
    (h : terrainLookup prev c r = some t) : ∃ g ∈ prev, g.terrain_index = t := by
  unfold terrainLookup at h
  cases hf : prev.reverse.find? (fun g => g.col == c && g.row == r) with
  | none => rw [hf] at h; exact absurd h (by simp)
  | some g =>
    rw [hf] at h
    refine ⟨g, List.mem_reverse.mp (List.mem_of_find?_eq_some hf), ?_⟩
    simpa using h

theorem randomizeCells_terrain_range (num : ℕ) (rng : ℕ → ℕ) (hnum : 0 < num) :
    ∀ (l : List Hex) (k : ℕ), ∀ h ∈ randomizeCells num rng l k,
      0 ≤ h.terrain_index ∧ h.terrain_index < num
  | [], _, h, hmem => absurd hmem (List.not_mem_nil _)
  | h0 :: rest, k, h, hmem => by
    rw [randomizeCells] at hmem
    rcases List.mem_cons.mp hmem with heq | htail
    · subst heq
      have hti : (h0.randomize_terrain num (rng k)).terrain_index
          = ((rng k % num : ℕ) : ℤ) := rfl
      rw [hti]
      refine ⟨by positivity, ?_⟩
      have hmod : rng k % num < num := Nat.mod_lt _ hnum
      exact_mod_cast hmod
    · exact randomizeCells_terrain_range num rng hnum rest (k + 1) h htail

/-- C7 amended: the palette-validity invariant `0 ≤ terrain_index < palette
size` holds after initial construction, is preserved by randomization, and
is preserved by a rebuild PROVIDED every preserved cell's index is already
valid for the palette size passed (in particular by every rebuild through
`HexGrid.rebuild_grid`, whose palette never changes).  A rebuild in which
the palette size passed is smaller than before can leave a dangling index
(see the counterexample). -/
theorem c7_amended_terrain_invariant (cols rows size border : ℕ) (o : String)
    (num : ℕ) (prev : List Hex) (rng : ℕ → ℕ) (g : HexGrid) (hnum : 0 < num)
    (hprev : ∀ h ∈ prev, 0 ≤ h.terrain_index ∧ h.terrain_index < num)
    (hg : 0 < g.terrain_types.length) :
    (∀ h ∈ create_hex_grid cols rows size border o num none rng,
      0 ≤ h.terrain_index ∧ h.terrain_index < num) ∧
    (∀ h ∈ create_hex_grid cols rows size border o num (some prev) rng,
      0 ≤ h.terrain_index ∧ h.terrain_index < num) ∧
    (∀ h ∈ (g.randomize_all_terrains rng).hexes,
      0 ≤ h.terrain_index ∧ h.terrain_index < g.terrain_types.length) := by
  refine ⟨?_, ?_, ?_⟩
  · exact buildCells_terrain_range size border o num rng _ hnum
      (fun c r t ht => absurd ht (by simp)) (coordList cols rows) 0
  · refine buildCells_terrain_range size border o num rng _ hnum ?_ (coordList cols rows) 0
    intro c r t ht
    obtain ⟨g0, hg0, rfl⟩ := terrainLookup_some_mem prev c r t ht
    exact hprev g0 hg0
  · exact randomizeCells_terrain_range g.terrain_types.length rng hg g.hexes 0

/-- Witness for C7 (amended) on a concrete grid. -/
theorem c7_amended_terrain_invariant_witness :
    (0 < 2) ∧
    (∀ h ∈ [Hex.make 0 0 1 1 0 "Flat"], 0 ≤ h.terrain_index ∧ h.terrain_index < 2) ∧
    (0 < (HexGrid.init 1 1 1 0 "Flat" DEFAULT_TERRAIN_TYPES
        (fun _ => 0)).terrain_types.length) ∧
    ((∀ h ∈ create_hex_grid 1 1 1 0 "Flat" 2 none (fun _ => 0),
        0 ≤ h.terrain_index ∧ h.terrain_index < 2) ∧
     (∀ h ∈ create_hex_grid 1 1 1 0 "Flat" 2 (some [Hex.make 0 0 1 1 0 "Flat"]) (fun _ => 0),
        0 ≤ h.terrain_index ∧ h.terrain_index < 2) ∧
     (∀ h ∈ ((HexGrid.init 1 1 1 0 "Flat" DEFAULT_TERRAIN_TYPES
          (fun _ => 0)).randomize_all_terrains (fun _ => 0)).hexes,
        0 ≤ h.terrain_index ∧ h.terrain_index <
          (HexGrid.init 1 1 1 0 "Flat" DEFAULT_TERRAIN_TYPES
            (fun _ => 0)).terrain_types.length)) :=
  ⟨by decide, by decide, by decide,
    c7_amended_terrain_invariant 1 1 1 0 "Flat" 2 [Hex.make 0 0 1 1 0 "Flat"] (fun _ => 0)
      (HexGrid.init 1 1 1 0 "Flat" DEFAULT_TERRAIN_TYPES (fun _ => 0)) (by decide)
      (by decide) (by decide)⟩

/-! ## Trigonometric certification of the vertex tables -/

theorem cosFlatTab_toReal : ∀ i < 6,
    (cosFlatTab i).toReal = Real.cos (Real.pi / 3 * (i : ℝ)) := by
  intro i hi
  interval_cases i
  · rw [cosFlatTab, R3.toReal]
    norm_num
  · rw [cosFlatTab, R3.toReal]
    norm_num [Real.cos_pi_div_three]
  · rw [cosFlatTab, R3.toReal]
    rw [show Real.pi / 3 * ((2 : ℕ) : ℝ) = Real.pi - Real.pi / 3 by push_cast; ring]
    rw [Real.cos_pi_sub, Real.cos_pi_div_three]
    norm_num
  · rw [cosFlatTab, R3.toReal]
    rw [show Real.pi / 3 * ((3 : ℕ) : ℝ) = Real.pi by push_cast; ring]
    rw [Real.cos_pi]
    norm_num
  · rw [cosFlatTab, R3.toReal]
    rw [show Real.pi / 3 * ((4 : ℕ) : ℝ) = Real.pi + Real.pi / 3 by push_cast; ring]
    rw [Real.cos_add, Real.cos_pi, Real.sin_pi, Real.cos_pi_div_three]
    norm_num
  · have htab : cosFlatTab 5 = ⟨1/2, 0⟩ := rfl
    rw [htab, R3.toReal]
    rw [show Real.pi / 3 * ((5 : ℕ) : ℝ) = 2 * Real.pi - Real.pi / 3 by push_cast; ring]
    rw [Real.cos_sub, Real.cos_two_pi, Real.sin_two_pi, Real.cos_pi_div_three]
    norm_num

theorem sinFlatTab_toReal : ∀ i < 6,
    (sinFlatTab i).toReal = Real.sin (Real.pi / 3 * (i : ℝ)) := by
  intro i hi
  interval_cases i
  · rw [sinFlatTab, R3.toReal]
    norm_num
  · rw [sinFlatTab, R3.toReal]
    rw [show Real.pi / 3 * ((1 : ℕ) : ℝ) = Real.pi / 3 by push_cast; ring]
    rw [Real.sin_pi_div_three]
    ring
  · rw [sinFlatTab, R3.toReal]
    rw [show Real.pi / 3 * ((2 : ℕ) : ℝ) = Real.pi - Real.pi / 3 by push_cast; ring]
    rw [Real.sin_pi_sub, Real.sin_pi_div_three]
    ring
  · rw [sinFlatTab, R3.toReal]
    rw [show Real.pi / 3 * ((3 : ℕ) : ℝ) = Real.pi by push_cast; ring]
    rw [Real.sin_pi]
    norm_num
  · rw [sinFlatTab, R3.toReal]
    rw [show Real.pi / 3 * ((4 : ℕ) : ℝ) = Real.pi + Real.pi / 3 by push_cast; ring]
    rw [Real.sin_add, Real.cos_pi, Real.sin_pi, Real.sin_pi_div_three]
    push_cast
    ring
  · have htab : sinFlatTab 5 = ⟨0, -1/2⟩ := rfl
    rw [htab, R3.toReal]
    rw [show Real.pi / 3 * ((5 : ℕ) : ℝ) = 2 * Real.pi - Real.pi / 3 by push_cast; ring]
    rw [Real.sin_sub, Real.cos_two_pi, Real.sin_two_pi, Real.sin_pi_div_three]
    push_cast
    ring

theorem cosPointyTab_toReal : ∀ i < 6,
    (cosPointyTab i).toReal = Real.cos (Real.pi / 3 * (i : ℝ) + Real.pi / 6) := by
  intro i hi
  interval_cases i
  · rw [cosPointyTab, R3.toReal]
    rw [show Real.pi / 3 * ((0 : ℕ) : ℝ) + Real.pi / 6 = Real.pi / 6 by push_cast; ring]
    rw [Real.cos_pi_div_six]
    ring
  · rw [cosPointyTab, R3.toReal]
    rw [show Real.pi / 3 * ((1 : ℕ) : ℝ) + Real.pi / 6 = Real.pi / 2 by push_cast; ring]
    rw [Real.cos_pi_div_two]
    norm_num
  · rw [cosPointyTab, R3.toReal]
    rw [show Real.pi / 3 * ((2 : ℕ) : ℝ) + Real.pi / 6 = Real.pi - Real.pi / 6 by
      push_cast; ring]
    rw [Real.cos_pi_sub, Real.cos_pi_div_six]
    ring
  · rw [cosPointyTab, R3.toReal]
    rw [show Real.pi / 3 * ((3 : ℕ) : ℝ) + Real.pi / 6 = Real.pi + Real.pi / 6 by
      push_cast; ring]
    rw [Real.cos_add, Real.cos_pi, Real.sin_pi, Real.cos_pi_div_six]
    push_cast
    ring
  · rw [cosPointyTab, R3.toReal]
    rw [show Real.pi / 3 * ((4 : ℕ) : ℝ) + Real.pi / 6 = Real.pi + Real.pi / 2 by
      push_cast; ring]
    rw [Real.cos_add, Real.cos_pi, Real.sin_pi, Real.cos_pi_div_two]
    norm_num
  · have htab : cosPointyTab 5 = ⟨0, 1/2⟩ := rfl
    rw [htab, R3.toReal]
    rw [show Real.pi / 3 * ((5 : ℕ) : ℝ) + Real.pi / 6 = 2 * Real.pi - Real.pi / 6 by
      push_cast; ring]
    rw [Real.cos_sub, Real.cos_two_pi, Real.sin_two_pi, Real.cos_pi_div_six]
    ring

theorem sinPointyTab_toReal : ∀ i < 6,
    (sinPointyTab i).toReal = Real.sin (Real.pi / 3 * (i : ℝ) + Real.pi / 6) := by
  intro i hi
  interval_cases i
  · rw [sinPointyTab, R3.toReal]
    rw [show Real.pi / 3 * ((0 : ℕ) : ℝ) + Real.pi / 6 = Real.pi / 6 by push_cast; ring]
    rw [Real.sin_pi_div_six]
    norm_num
  · rw [sinPointyTab, R3.toReal]
    rw [show Real.pi / 3 * ((1 : ℕ) : ℝ) + Real.pi / 6 = Real.pi / 2 by push_cast; ring]
    rw [Real.sin_pi_div_two]
    norm_num
  · rw [sinPointyTab, R3.toReal]
    rw [show Real.pi / 3 * ((2 : ℕ) : ℝ) + Real.pi / 6 = Real.pi - Real.pi / 6 by
      push_cast; ring]
    rw [Real.sin_pi_sub, Real.sin_pi_div_six]
    norm_num
  · rw [sinPointyTab, R3.toReal]
    rw [show Real.pi / 3 * ((3 : ℕ) : ℝ) + Real.pi / 6 = Real.pi + Real.pi / 6 by
      push_cast; ring]
    rw [Real.sin_add, Real.cos_pi, Real.sin_pi, Real.sin_pi_div_six]
    norm_num
  · rw [sinPointyTab, R3.toReal]
    rw [show Real.pi / 3 * ((4 : ℕ) : ℝ) + Real.pi / 6 = Real.pi + Real.pi / 2 by
      push_cast; ring]
    rw [Real.sin_add, Real.cos_pi, Real.sin_pi, Real.sin_pi_div_two]
    norm_num
  · have htab : sinPointyTab 5 = ⟨-1/2, 0⟩ := rfl
    rw [htab, R3.toReal]
    rw [show Real.pi / 3 * ((5 : ℕ) : ℝ) + Real.pi / 6 = 2 * Real.pi - Real.pi / 6 by
      push_cast; ring]
    rw [Real.sin_sub, Real.cos_two_pi, Real.sin_two_pi, Real.sin_pi_div_six]
    norm_num

/-! ## Claim C9 -/

theorem truncReal_add_nat (u : ℝ) (n : ℕ) (hu : 0 ≤ u) :
    R3.truncReal (u + n) = R3.truncReal u + n := by
  rw [R3.truncReal_of_nonneg hu, R3.truncReal_of_nonneg (by positivity), Int.floor_add_nat]

theorem truncReal_gap_ge (u g : ℝ) (hu : 0 ≤ u) (hg : 1 ≤ g) :
    R3.truncReal u + 1 ≤ R3.truncReal (u + g) := by
  rw [R3.truncReal_of_nonneg hu, R3.truncReal_of_nonneg (by linarith)]
  calc ⌊u⌋ + 1 = ⌊u + 1⌋ := (Int.floor_add_one u).symm
  _ ≤ ⌊u + g⌋ := Int.floor_mono (by linarith)

theorem get_vertices_getD (h : Hex) (s : ℕ) (i : ℕ) (hi : i < 6) :
    (h.get_vertices s).getD i (0, 0)
      = if h.orientation = "Flat" then
          (R3.trunc (R3.add h.center_x ((cosFlatTab i).mulQ s)),
           R3.trunc (R3.add h.center_y ((sinFlatTab i).mulQ s)))
        else
          (R3.trunc (R3.add h.center_x ((cosPointyTab i).mulQ s)),
           R3.trunc (R3.add h.center_y ((sinPointyTab i).mulQ s))) := by
  rw [Hex.get_vertices]
  rw [List.getD_eq_getElem?_getD, List.getElem?_map, List.getElem?_range hi]
  rfl

theorem get_vertices_length (h : Hex) (s : ℕ) : (h.get_vertices s).length = 6 := by
  rw [Hex.get_vertices, List.length_map, List.length_range]

theorem get_vertices_getD_real (h : Hex) (s : ℕ) (i : ℕ) (hi : i < 6) :
    (h.get_vertices s).getD i (0, 0)
      = if h.orientation = "Flat" then
          (R3.truncReal (h.center_x.toReal + (cosFlatTab i).toReal * (s : ℝ)),
           R3.truncReal (h.center_y.toReal + (sinFlatTab i).toReal * (s : ℝ)))
        else
          (R3.truncReal (h.center_x.toReal + (cosPointyTab i).toReal * (s : ℝ)),
           R3.truncReal (h.center_y.toReal + (sinPointyTab i).toReal * (s : ℝ))) := by
  rw [get_vertices_getD h s i hi]
  by_cases ho : h.orientation = "Flat"
  · rw [if_pos ho, if_pos ho]
    rw [R3.trunc_eq, R3.trunc_eq, R3.toReal_add, R3.toReal_add, R3.toReal_mulQ,
      R3.toReal_mulQ, Rat.cast_natCast]
  · rw [if_neg ho, if_neg ho]
    rw [R3.trunc_eq, R3.trunc_eq, R3.toReal_add, R3.toReal_add, R3.toReal_mulQ,
      R3.toReal_mulQ, Rat.cast_natCast]

/-- C9 (amended): for every radius and every center, `get_vertices` returns
exactly 6 points, point `i` being the center displaced by the radius at angle
`i·60°` (flat) or `i·60° + 30°` (pointy) with both coordinates truncated
toward zero; and — only under the provisos `size ≥ 2` (for `size = 1`
truncation can collapse consecutive points onto a line, see the
counterexample) and center at least `size` away from the axes, as holds for
every grid-constructed cell — any three consecutive returned points are
non-collinear. -/
theorem c9_vertices_angles_noncollinear (h : Hex) (s : ℕ) :
    (h.get_vertices s).length = 6 ∧
    (∀ i : ℕ, i < 6 →
      (h.get_vertices s).getD i (0, 0)
        = (R3.truncReal (h.center_x.toReal + (s : ℝ) *
              Real.cos (if h.orientation = "Flat" then Real.pi / 3 * (i : ℝ)
                else Real.pi / 3 * (i : ℝ) + Real.pi / 6)),
           R3.truncReal (h.center_y.toReal + (s : ℝ) *
              Real.sin (if h.orientation = "Flat" then Real.pi / 3 * (i : ℝ)
                else Real.pi / 3 * (i : ℝ) + Real.pi / 6)))) ∧
    (2 ≤ s →
     R3.leB (R3.ofInt (s : ℤ)) h.center_x = true →
     R3.leB (R3.ofInt (s : ℤ)) h.center_y = true →
     ∀ i : ℕ, i ≤ 3 →
      crossZ ((h.get_vertices s).getD i (0, 0))
        ((h.get_vertices s).getD (i + 1) (0, 0))
        ((h.get_vertices s).getD (i + 2) (0, 0)) ≠ 0) := by
  set cx := h.center_x.toReal with hcxdef
  set cy := h.center_y.toReal with hcydef
  refine ⟨get_vertices_length h s, ?_, ?_⟩
  · intro i hi
    rw [get_vertices_getD_real h s i hi]
    by_cases ho : h.orientation = "Flat"
    · rw [if_pos ho, if_pos ho]
      have e1 : cx + (cosFlatTab i).toReal * (s : ℝ)
          = cx + (s : ℝ) * Real.cos (Real.pi / 3 * (i : ℝ)) := by
        rw [cosFlatTab_toReal i hi]; ring
      have e2 : cy + (sinFlatTab i).toReal * (s : ℝ)
          = cy + (s : ℝ) * Real.sin (Real.pi / 3 * (i : ℝ)) := by
        rw [sinFlatTab_toReal i hi]; ring
      rw [e1, e2]
    · rw [if_neg ho, if_neg ho]
      have e1 : cx + (cosPointyTab i).toReal * (s : ℝ)
          = cx + (s : ℝ) * Real.cos (Real.pi / 3 * (i : ℝ) + Real.pi / 6) := by
        rw [cosPointyTab_toReal i hi]; ring
      have e2 : cy + (sinPointyTab i).toReal * (s : ℝ)
          = cy + (s : ℝ) * Real.sin (Real.pi / 3 * (i : ℝ) + Real.pi / 6) := by
        rw [sinPointyTab_toReal i hi]; ring
      rw [e1, e2]
  · intro hs hcx hcy
    have hcx' : (s : ℝ) ≤ cx := by
      rw [R3.leB_iff, R3.toReal_ofInt] at hcx
      rw [hcxdef]
      exact_mod_cast hcx
    have hcy' : (s : ℝ) ≤ cy := by
      rw [R3.leB_iff, R3.toReal_ofInt] at hcy
      rw [hcydef]
      exact_mod_cast hcy
    have hsR : (2 : ℝ) ≤ (s : ℝ) := by exact_mod_cast hs
    have hsZ : (2 : ℤ) ≤ (s : ℤ) := by exact_mod_cast hs
    have hg3low : (1 : ℝ) ≤ (s : ℝ) * Real.sqrt 3 / 2 := by
      nlinarith [R3.one_le_sqrt3]
    have hg3high : (s : ℝ) * Real.sqrt 3 / 2 ≤ (s : ℝ) := by
      nlinarith [R3.sqrt3_le_two]
    intro i hile
    by_cases ho : h.orientation = "Flat"
    · -- flat: canonical trunc values
      set X3 := R3.truncReal (cx - (s : ℝ)) with hX3
      set X2 := R3.truncReal (cx - (s : ℝ) / 2) with hX2
      set Y0 := R3.truncReal cy with hY0
      set Y1 := R3.truncReal (cy + (s : ℝ) * Real.sqrt 3 / 2) with hY1
      set Y2 := R3.truncReal (cy - (s : ℝ) * Real.sqrt 3 / 2) with hY2
      have hu3 : (0 : ℝ) ≤ cx - (s : ℝ) := by linarith
      have hu2 : (0 : ℝ) ≤ cx - (s : ℝ) / 2 := by linarith
      have huy : (0 : ℝ) ≤ cy := by linarith
      have huy2 : (0 : ℝ) ≤ cy - (s : ℝ) * Real.sqrt 3 / 2 := by linarith
      have hX1eq : R3.truncReal (cx + (s : ℝ) / 2) = X2 + (s : ℤ) := by
        have harg : cx + (s : ℝ) / 2 = (cx - (s : ℝ) / 2) + (s : ℕ) := by ring
        rw [harg, truncReal_add_nat _ _ hu2]
      have hX0eq : R3.truncReal (cx + (s : ℝ)) = X3 + 2 * (s : ℤ) := by
        have harg : cx + (s : ℝ) = (cx - (s : ℝ)) + ((2 * s : ℕ) : ℝ) := by push_cast; ring
        rw [harg, truncReal_add_nat _ _ hu3]
        push_cast
        ring
      have ha : X3 + 1 ≤ X2 := by
        have := truncReal_gap_ge (cx - (s : ℝ)) ((s : ℝ) / 2) hu3 (by linarith)
        have harg : cx - (s : ℝ) + (s : ℝ) / 2 = cx - (s : ℝ) / 2 := by ring
        rw [harg] at this
        exact this
      have hD : Y0 + 1 ≤ Y1 := by
        have := truncReal_gap_ge cy ((s : ℝ) * Real.sqrt 3 / 2) huy hg3low
        exact this
      have hD2 : Y2 + 1 ≤ Y0 := by
        have := truncReal_gap_ge (cy - (s : ℝ) * Real.sqrt 3 / 2)
          ((s : ℝ) * Real.sqrt 3 / 2) huy2 hg3low
        have harg : cy - (s : ℝ) * Real.sqrt 3 / 2 + (s : ℝ) * Real.sqrt 3 / 2 = cy := by
          ring
        rw [harg] at this
        exact this
      -- the six vertices in canonical form
      have hv0 : (h.get_vertices s).getD 0 (0, 0) = (X3 + 2 * (s : ℤ), Y0) := by
        rw [get_vertices_getD_real h s 0 (by norm_num), if_pos ho]
        have hc : (cosFlatTab 0).toReal = 1 := by
          rw [show cosFlatTab 0 = ⟨1, 0⟩ from rfl, R3.toReal]; norm_num
        have hn : (sinFlatTab 0).toReal = 0 := by
          rw [show sinFlatTab 0 = ⟨0, 0⟩ from rfl, R3.toReal]; norm_num
        rw [hc, hn, show cx + 1 * (s : ℝ) = cx + (s : ℝ) by ring,
          show cy + 0 * (s : ℝ) = cy by ring, hX0eq]
      have hv1 : (h.get_vertices s).getD 1 (0, 0) = (X2 + (s : ℤ), Y1) := by
        rw [get_vertices_getD_real h s 1 (by norm_num), if_pos ho]
        have hc : (cosFlatTab 1).toReal = 1 / 2 := by
          rw [show cosFlatTab 1 = ⟨1/2, 0⟩ from rfl, R3.toReal]; norm_num
        have hn : (sinFlatTab 1).toReal = Real.sqrt 3 / 2 := by
          rw [show sinFlatTab 1 = ⟨0, 1/2⟩ from rfl, R3.toReal]; push_cast; ring
        rw [hc, hn, show cx + 1 / 2 * (s : ℝ) = cx + (s : ℝ) / 2 by ring,
          show cy + Real.sqrt 3 / 2 * (s : ℝ) = cy + (s : ℝ) * Real.sqrt 3 / 2 by ring,
          hX1eq]
      have hv2 : (h.get_vertices s).getD 2 (0, 0) = (X2, Y1) := by
        rw [get_vertices_getD_real h s 2 (by norm_num), if_pos ho]
        have hc : (cosFlatTab 2).toReal = -(1 / 2) := by
          rw [show cosFlatTab 2 = ⟨-(1/2), 0⟩ from rfl, R3.toReal]; norm_num
        have hn : (sinFlatTab 2).toReal = Real.sqrt 3 / 2 := by
          rw [show sinFlatTab 2 = ⟨0, 1/2⟩ from rfl, R3.toReal]; push_cast; ring
        rw [hc, hn, show cx + -(1 / 2) * (s : ℝ) = cx - (s : ℝ) / 2 by ring,
          show cy + Real.sqrt 3 / 2 * (s : ℝ) = cy + (s : ℝ) * Real.sqrt 3 / 2 by ring]
      have hv3 : (h.get_vertices s).getD 3 (0, 0) = (X3, Y0) := by
        rw [get_vertices_getD_real h s 3 (by norm_num), if_pos ho]
        have hc : (cosFlatTab 3).toReal = -1 := by
          rw [show cosFlatTab 3 = ⟨-1, 0⟩ from rfl, R3.toReal]; norm_num
        have hn : (sinFlatTab 3).toReal = 0 := by
          rw [show sinFlatTab 3 = ⟨0, 0⟩ from rfl, R3.toReal]; norm_num
        rw [hc, hn, show cx + -1 * (s : ℝ) = cx - (s : ℝ) by ring,
          show cy + 0 * (s : ℝ) = cy by ring]
      have hv4 : (h.get_vertices s).getD 4 (0, 0) = (X2, Y2) := by
        rw [get_vertices_getD_real h s 4 (by norm_num), if_pos ho]
        have hc : (cosFlatTab 4).toReal = -(1 / 2) := by
          rw [show cosFlatTab 4 = ⟨-(1/2), 0⟩ from rfl, R3.toReal]; norm_num
        have hn : (sinFlatTab 4).toReal = -(Real.sqrt 3 / 2) := by
          rw [show sinFlatTab 4 = ⟨0, -(1/2)⟩ from rfl, R3.toReal]; push_cast; ring
        rw [hc, hn, show cx + -(1 / 2) * (s : ℝ) = cx - (s : ℝ) / 2 by ring,
          show cy + -(Real.sqrt 3 / 2) * (s : ℝ) = cy - (s : ℝ) * Real.sqrt 3 / 2 by ring]
      have hv5 : (h.get_vertices s).getD 5 (0, 0) = (X2 + (s : ℤ), Y2) := by
        rw [get_vertices_getD_real h s 5 (by norm_num), if_pos ho]
        have hc : (cosFlatTab 5).toReal = 1 / 2 := by
          rw [show cosFlatTab 5 = ⟨1/2, 0⟩ from rfl, R3.toReal]; norm_num
        have hn : (sinFlatTab 5).toReal = -(Real.sqrt 3 / 2) := by
          rw [show sinFlatTab 5 = ⟨0, -(1/2)⟩ from rfl, R3.toReal]; push_cast; ring
        rw [hc, hn, show cx + 1 / 2 * (s : ℝ) = cx + (s : ℝ) / 2 by ring,
          show cy + -(Real.sqrt 3 / 2) * (s : ℝ) = cy - (s : ℝ) * Real.sqrt 3 / 2 by ring,
          hX1eq]
      interval_cases i
      · rw [show (0 : ℕ) + 1 = 1 from rfl, show (0 : ℕ) + 2 = 2 from rfl, hv0, hv1, hv2]
        have hform : crossZ (X3 + 2 * (s : ℤ), Y0) (X2 + (s : ℤ), Y1) (X2, Y1)
            = (Y1 - Y0) * (s : ℤ) := by rw [crossZ]; ring
        rw [hform]
        exact ne_of_gt (mul_pos (by linarith) (by linarith))
      · rw [show (1 : ℕ) + 1 = 2 from rfl, show (1 : ℕ) + 2 = 3 from rfl, hv1, hv2, hv3]
        have hform : crossZ (X2 + (s : ℤ), Y1) (X2, Y1) (X3, Y0)
            = (s : ℤ) * (Y1 - Y0) := by rw [crossZ]; ring
        rw [hform]
        exact ne_of_gt (mul_pos (by linarith) (by linarith))
      · rw [show (2 : ℕ) + 1 = 3 from rfl, show (2 : ℕ) + 2 = 4 from rfl, hv2, hv3, hv4]
        have hform : crossZ (X2, Y1) (X3, Y0) (X2, Y2)
            = (X2 - X3) * (Y0 - Y2) + (X2 - X3) * (Y1 - Y0) := by rw [crossZ]; ring
        rw [hform]
        have h1 : (0 : ℤ) < (X2 - X3) * (Y0 - Y2) := mul_pos (by linarith) (by linarith)
        have h2 : (0 : ℤ) < (X2 - X3) * (Y1 - Y0) := mul_pos (by linarith) (by linarith)
        exact ne_of_gt (by linarith)
      · rw [show (3 : ℕ) + 1 = 4 from rfl, show (3 : ℕ) + 2 = 5 from rfl, hv3, hv4, hv5]
        have hform : crossZ (X3, Y0) (X2, Y2) (X2 + (s : ℤ), Y2)
            = (s : ℤ) * (Y0 - Y2) := by rw [crossZ]; ring
        rw [hform]
        exact ne_of_gt (mul_pos (by linarith) (by linarith))
    · -- pointy: canonical trunc values
      set A1 := R3.truncReal cx with hA1
      set A0 := R3.truncReal (cx + (s : ℝ) * Real.sqrt 3 / 2) with hA0
      set A2 := R3.truncReal (cx - (s : ℝ) * Real.sqrt 3 / 2) with hA2
      set B0 := R3.truncReal (cy + (s : ℝ) / 2) with hB0
      set B2 := R3.truncReal (cy - (s : ℝ) / 2) with hB2
      set B3 := R3.truncReal (cy - (s : ℝ)) with hB3
      have hux : (0 : ℝ) ≤ cx := by linarith
      have hux2 : (0 : ℝ) ≤ cx - (s : ℝ) * Real.sqrt 3 / 2 := by linarith
      have huy2 : (0 : ℝ) ≤ cy - (s : ℝ) / 2 := by linarith
      have huy3 : (0 : ℝ) ≤ cy - (s : ℝ) := by linarith
      have hB0eq : B0 = B2 + (s : ℤ) := by
        have harg : cy + (s : ℝ) / 2 = (cy - (s : ℝ) / 2) + (s : ℕ) := by ring
        rw [hB0, harg, truncReal_add_nat _ _ huy2]
      have hB1eq : R3.truncReal (cy + (s : ℝ)) = B3 + 2 * (s : ℤ) := by
        have harg : cy + (s : ℝ) = (cy - (s : ℝ)) + ((2 * s : ℕ) : ℝ) := by push_cast; ring
        rw [harg, truncReal_add_nat _ _ huy3]
        push_cast
        ring
      have hp : A1 + 1 ≤ A0 := by
        exact truncReal_gap_ge cx ((s : ℝ) * Real.sqrt 3 / 2) hux hg3low
      have hq : A2 + 1 ≤ A1 := by
        have := truncReal_gap_ge (cx - (s : ℝ) * Real.sqrt 3 / 2)
          ((s : ℝ) * Real.sqrt 3 / 2) hux2 hg3low
        have harg : cx - (s : ℝ) * Real.sqrt 3 / 2 + (s : ℝ) * Real.sqrt 3 / 2 = cx := by
          ring
        rw [harg] at this
        exact this
      have hElow : B0 + 1 ≤ R3.truncReal (cy + (s : ℝ)) := by
        have := truncReal_gap_ge (cy + (s : ℝ) / 2) ((s : ℝ) / 2) (by linarith)
          (by linarith)
        have harg : cy + (s : ℝ) / 2 + (s : ℝ) / 2 = cy + (s : ℝ) := by ring
        rw [harg] at this
        exact this
      have hEhigh : R3.truncReal (cy + (s : ℝ)) ≤ B0 + (((s + 1) / 2 : ℕ) : ℤ) := by
        have hle : cy + (s : ℝ) ≤ (cy + (s : ℝ) / 2) + (((s + 1) / 2 : ℕ) : ℝ) := by
          have hn : s ≤ 2 * ((s + 1) / 2) := by omega
          have hnR : (s : ℝ) ≤ 2 * (((s + 1) / 2 : ℕ) : ℝ) := by exact_mod_cast hn
          linarith
        have hmono := R3.truncReal_mono hle
        have hsplit : R3.truncReal ((cy + (s : ℝ) / 2) + (((s + 1) / 2 : ℕ) : ℝ))
            = B0 + (((s + 1) / 2 : ℕ) : ℤ) := truncReal_add_nat _ _ (by linarith)
        rw [hsplit] at hmono
        exact hmono
      have hEbound : R3.truncReal (cy + (s : ℝ)) ≤ B0 + (s : ℤ) - 1 := by
        have h9 : (s + 1) / 2 + 1 ≤ s := by omega
        have h9z : (((s + 1) / 2 : ℕ) : ℤ) + 1 ≤ (s : ℤ) := by exact_mod_cast h9
        linarith [hEhigh]
      have hv0 : (h.get_vertices s).getD 0 (0, 0) = (A0, B0) := by
        rw [get_vertices_getD_real h s 0 (by norm_num), if_neg ho]
        have hc : (cosPointyTab 0).toReal = Real.sqrt 3 / 2 := by
          rw [show cosPointyTab 0 = ⟨0, 1/2⟩ from rfl, R3.toReal]; push_cast; ring
        have hn : (sinPointyTab 0).toReal = 1 / 2 := by
          rw [show sinPointyTab 0 = ⟨1/2, 0⟩ from rfl, R3.toReal]; norm_num
        rw [hc, hn, show cx + Real.sqrt 3 / 2 * (s : ℝ) = cx + (s : ℝ) * Real.sqrt 3 / 2
          by ring, show cy + 1 / 2 * (s : ℝ) = cy + (s : ℝ) / 2 by ring]
      have hv1 : (h.get_vertices s).getD 1 (0, 0) = (A1, B3 + 2 * (s : ℤ)) := by
        rw [get_vertices_getD_real h s 1 (by norm_num), if_neg ho]
        have hc : (cosPointyTab 1).toReal = 0 := by
          rw [show cosPointyTab 1 = ⟨0, 0⟩ from rfl, R3.toReal]; norm_num
        have hn : (sinPointyTab 1).toReal = 1 := by
          rw [show sinPointyTab 1 = ⟨1, 0⟩ from rfl, R3.toReal]; norm_num
        rw [hc, hn, show cx + 0 * (s : ℝ) = cx by ring,
          show cy + 1 * (s : ℝ) = cy + (s : ℝ) by ring, hB1eq]
      have hv2 : (h.get_vertices s).getD 2 (0, 0) = (A2, B0) := by
        rw [get_vertices_getD_real h s 2 (by norm_num), if_neg ho]
        have hc : (cosPointyTab 2).toReal = -(Real.sqrt 3 / 2) := by
          rw [show cosPointyTab 2 = ⟨0, -(1/2)⟩ from rfl, R3.toReal]; push_cast; ring
        have hn : (sinPointyTab 2).toReal = 1 / 2 := by
          rw [show sinPointyTab 2 = ⟨1/2, 0⟩ from rfl, R3.toReal]; norm_num
        rw [hc, hn, show cx + -(Real.sqrt 3 / 2) * (s : ℝ)
            = cx - (s : ℝ) * Real.sqrt 3 / 2 by ring,
          show cy + 1 / 2 * (s : ℝ) = cy + (s : ℝ) / 2 by ring]
      have hv3 : (h.get_vertices s).getD 3 (0, 0) = (A2, B2) := by
        rw [get_vertices_getD_real h s 3 (by norm_num), if_neg ho]
        have hc : (cosPointyTab 3).toReal = -(Real.sqrt 3 / 2) := by
          rw [show cosPointyTab 3 = ⟨0, -(1/2)⟩ from rfl, R3.toReal]; push_cast; ring
        have hn : (sinPointyTab 3).toReal = -(1 / 2) := by
          rw [show sinPointyTab 3 = ⟨-(1/2), 0⟩ from rfl, R3.toReal]; norm_num
        rw [hc, hn, show cx + -(Real.sqrt 3 / 2) * (s : ℝ)
            = cx - (s : ℝ) * Real.sqrt 3 / 2 by ring,
          show cy + -(1 / 2) * (s : ℝ) = cy - (s : ℝ) / 2 by ring]
      have hv4 : (h.get_vertices s).getD 4 (0, 0) = (A1, B3) := by
        rw [get_vertices_getD_real h s 4 (by norm_num), if_neg ho]
        have hc : (cosPointyTab 4).toReal = 0 := by
          rw [show cosPointyTab 4 = ⟨0, 0⟩ from rfl, R3.toReal]; norm_num
        have hn : (sinPointyTab 4).toReal = -1 := by
          rw [show sinPointyTab 4 = ⟨-1, 0⟩ from rfl, R3.toReal]; norm_num
        rw [hc, hn, show cx + 0 * (s : ℝ) = cx by ring,
          show cy + -1 * (s : ℝ) = cy - (s : ℝ) by ring]
      have hv5 : (h.get_vertices s).getD 5 (0, 0) = (A0, B2) := by
        rw [get_vertices_getD_real h s 5 (by norm_num), if_neg ho]
        have hc : (cosPointyTab 5).toReal = Real.sqrt 3 / 2 := by
          rw [show cosPointyTab 5 = ⟨0, 1/2⟩ from rfl, R3.toReal]; push_cast; ring
        have hn : (sinPointyTab 5).toReal = -(1 / 2) := by
          rw [show sinPointyTab 5 = ⟨-(1/2), 0⟩ from rfl, R3.toReal]; norm_num
        rw [hc, hn, show cx + Real.sqrt 3 / 2 * (s : ℝ) = cx + (s : ℝ) * Real.sqrt 3 / 2
          by ring, show cy + -(1 / 2) * (s : ℝ) = cy - (s : ℝ) / 2 by ring]
      have hE1 : B0 + 1 ≤ B3 + 2 * (s : ℤ) := by
        rw [← hB1eq]; exact hElow
      have hE2 : B3 + 2 * (s : ℤ) ≤ B0 + (s : ℤ) - 1 := by
        rw [← hB1eq]; exact hEbound
      interval_cases i
      · rw [show (0 : ℕ) + 1 = 1 from rfl, show (0 : ℕ) + 2 = 2 from rfl, hv0, hv1, hv2]
        have hform : crossZ (A0, B0) (A1, B3 + 2 * (s : ℤ)) (A2, B0)
            = (B3 + 2 * (s : ℤ) - B0) * (A0 - A2) := by rw [crossZ]; ring
        rw [hform]
        exact ne_of_gt (mul_pos (by linarith) (by linarith))
      · rw [show (1 : ℕ) + 1 = 2 from rfl, show (1 : ℕ) + 2 = 3 from rfl, hv1, hv2, hv3]
        have hform : crossZ (A1, B3 + 2 * (s : ℤ)) (A2, B0) (A2, B2)
            = (A1 - A2) * (B0 - B2) := by rw [crossZ]; ring
        rw [hform]
        rw [hB0eq]
        have hform2 : (A1 - A2) * (B2 + (s : ℤ) - B2) = (A1 - A2) * (s : ℤ) := by ring
        rw [hform2]
        exact ne_of_gt (mul_pos (by linarith) (by linarith))
      · rw [show (2 : ℕ) + 1 = 3 from rfl, show (2 : ℕ) + 2 = 4 from rfl, hv2, hv3, hv4]
        have hform : crossZ (A2, B0) (A2, B2) (A1, B3)
            = (B0 - B2) * (A1 - A2) := by rw [crossZ]; ring
        rw [hform, hB0eq]
        have hform2 : (B2 + (s : ℤ) - B2) * (A1 - A2) = (s : ℤ) * (A1 - A2) := by ring
        rw [hform2]
        exact ne_of_gt (mul_pos (by linarith) (by linarith))
      · rw [show (3 : ℕ) + 1 = 4 from rfl, show (3 : ℕ) + 2 = 5 from rfl, hv3, hv4, hv5]
        have hform : crossZ (A2, B2) (A1, B3) (A0, B2)
            = (B2 - B3) * (A0 - A1) + (B2 - B3) * (A1 - A2) := by rw [crossZ]; ring
        rw [hform]
        have hB2B3 : 1 ≤ B2 - B3 := by
          have h1 : B2 + (s : ℤ) = B0 := hB0eq.symm
          have h2 : B3 + 2 * (s : ℤ) ≤ B0 + (s : ℤ) - 1 := hE2
          linarith
        have h1 : (0 : ℤ) < (B2 - B3) * (A0 - A1) := mul_pos (by linarith) (by linarith)
        have h2 : (0 : ℤ) < (B2 - B3) * (A1 - A2) := mul_pos (by linarith) (by linarith)
        exact ne_of_gt (by linarith)

/-- C9 counterexample (to the claim as stated, for every `size > 0`): at
`size = 1` truncation collapses the first three vertices of the flat cell
`(0,0)` (radius‑40 hex, centered at `(50, 50)`) onto the horizontal line
`y = 50`: they are `(51,50), (50,50), (49,50)`, which are collinear. -/
theorem c9_counterexample :
    crossZ (((Hex.make 0 0 40 0 0 "Flat").get_vertices 1).getD 0 (0, 0))
      (((Hex.make 0 0 40 0 0 "Flat").get_vertices 1).getD 1 (0, 0))
      (((Hex.make 0 0 40 0 0 "Flat").get_vertices 1).getD 2 (0, 0)) = 0 ∧
    0 < 1 := by
  refine ⟨?_, by norm_num⟩
  decide

/-- Witness for C9 (amended) on the concrete flat cell `(0,0)` of radius 40
with vertex radius 40. -/
theorem c9_vertices_angles_noncollinear_witness :
    (2 ≤ 40) ∧
    (R3.leB (R3.ofInt ((40 : ℕ) : ℤ)) (Hex.make 0 0 40 0 0 "Flat").center_x = true) ∧
    (R3.leB (R3.ofInt ((40 : ℕ) : ℤ)) (Hex.make 0 0 40 0 0 "Flat").center_y = true) ∧
    (∀ i : ℕ, i ≤ 3 →
      crossZ (((Hex.make 0 0 40 0 0 "Flat").get_vertices 40).getD i (0, 0))
        (((Hex.make 0 0 40 0 0 "Flat").get_vertices 40).getD (i + 1) (0, 0))
        (((Hex.make 0 0 40 0 0 "Flat").get_vertices 40).getD (i + 2) (0, 0)) ≠ 0) :=
  ⟨by norm_num, by decide, by decide,
    (c9_vertices_angles_noncollinear (Hex.make 0 0 40 0 0 "Flat") 40).2.2
      (by norm_num) (by decide) (by decide)⟩

/-! ## Claim C6 -/

/-- C6: on a 5×5 grid with the default parameters (`size = 40`,
`border = 4`), under both orientations, `find_hex_at_position` at every
cell's exact computed center returns that very cell; and `point_in_polygon`
returns `true` for a hexagon's own centroid and `false` for a point far
outside its bounding box, for both orientations. -/
theorem c6_centroid_containment :
    (∀ h ∈ (HexGrid.init 5 5 40 4 "Flat" DEFAULT_TERRAIN_TYPES (fun k => k)).hexes,
      (HexGrid.init 5 5 40 4 "Flat" DEFAULT_TERRAIN_TYPES
        (fun k => k)).find_hex_at_position (h.center_x, h.center_y) = some h) ∧
    (∀ h ∈ (HexGrid.init 5 5 40 4 "Pointy" DEFAULT_TERRAIN_TYPES (fun k => k)).hexes,
      (HexGrid.init 5 5 40 4 "Pointy" DEFAULT_TERRAIN_TYPES
        (fun k => k)).find_hex_at_position (h.center_x, h.center_y) = some h) ∧
    (pipB ((Hex.make 0 0 40 0 4 "Flat").center_x, (Hex.make 0 0 40 0 4 "Flat").center_y)
      ((Hex.make 0 0 40 0 4 "Flat").get_vertices 40) = true) ∧
    (pipB (R3.ofInt 1000, R3.ofInt 1000)
      ((Hex.make 0 0 40 0 4 "Flat").get_vertices 40) = false) ∧
    (pipB ((Hex.make 0 0 40 0 4 "Pointy").center_x, (Hex.make 0 0 40 0 4 "Pointy").center_y)
      ((Hex.make 0 0 40 0 4 "Pointy").get_vertices 40) = true) ∧
    (pipB (R3.ofInt 1000, R3.ofInt 1000)
      ((Hex.make 0 0 40 0 4 "Pointy").get_vertices 40) = false) :=
  ⟨by decide, by decide, by decide, by decide, by decide, by decide⟩

/-! ## Claim C5: analysis of the bounding-box pre-check -/

theorem parityChanges_eq_bne (y : R3) : ∀ (es : List (ℤ × ℤ)) (p1 : ℤ × ℤ),
    parityChanges y p1 es = (bBelow y p1 != bBelow y (es.getLastD p1))
  | [], p1 => by simp [parityChanges]
  | p2 :: es, p1 => by
    rw [parityChanges, parityChanges_eq_bne y es p2, List.getLastD_cons]
    cases bBelow y p1 <;> cases bBelow y p2 <;> cases bBelow y (es.getLastD p2) <;> rfl

theorem bBelow_ne_iff (y : R3) (p1 p2 : ℤ × ℤ) :
    (bBelow y p1 != bBelow y p2) = true ↔
      (((min p1.2 p2.2 : ℤ) : ℝ) < y.toReal ∧ y.toReal ≤ ((max p1.2 p2.2 : ℤ) : ℝ)) := by
  rcases le_total p1.2 p2.2 with hle | hle
  · have hleR : ((p1.2 : ℤ) : ℝ) ≤ ((p2.2 : ℤ) : ℝ) := by exact_mod_cast hle
    rw [min_eq_left hle, max_eq_right hle]
    cases h1 : bBelow y p1 <;> cases h2 : bBelow y p2 <;> rw [bBelow] at h1 h2
    · rw [R3.ltB_false_iff, R3.toReal_ofInt] at h1
      refine ⟨fun hcontra => absurd hcontra (by simp), fun hc => ?_⟩
      exfalso
      linarith [hc.1]
    · rw [R3.ltB_false_iff, R3.toReal_ofInt] at h1
      rw [R3.ltB_iff, R3.toReal_ofInt] at h2
      exfalso
      linarith
    · rw [R3.ltB_iff, R3.toReal_ofInt] at h1
      rw [R3.ltB_false_iff, R3.toReal_ofInt] at h2
      exact ⟨fun _ => ⟨h1, h2⟩, fun _ => rfl⟩
    · rw [R3.ltB_iff, R3.toReal_ofInt] at h1 h2
      refine ⟨fun hcontra => absurd hcontra (by simp), fun hc => ?_⟩
      exfalso
      linarith [hc.2]
  · have hleR : ((p2.2 : ℤ) : ℝ) ≤ ((p1.2 : ℤ) : ℝ) := by exact_mod_cast hle
    rw [min_eq_right hle, max_eq_left hle]
    cases h1 : bBelow y p1 <;> cases h2 : bBelow y p2 <;> rw [bBelow] at h1 h2
    · rw [R3.ltB_false_iff, R3.toReal_ofInt] at h2
      refine ⟨fun hcontra => absurd hcontra (by simp), fun hc => ?_⟩
      exfalso
      linarith [hc.1]
    · rw [R3.ltB_false_iff, R3.toReal_ofInt] at h1
      rw [R3.ltB_iff, R3.toReal_ofInt] at h2
      exact ⟨fun _ => ⟨h2, h1⟩, fun _ => rfl⟩
    · rw [R3.ltB_iff, R3.toReal_ofInt] at h1
      rw [R3.ltB_false_iff, R3.toReal_ofInt] at h2
      exfalso
      linarith
    · rw [R3.ltB_iff, R3.toReal_ofInt] at h1 h2
      refine ⟨fun hcontra => absurd hcontra (by simp), fun hc => ?_⟩
      exfalso
      linarith [hc.2]

theorem xinters_ge (x y : R3) (p1 p2 : ℤ × ℤ) (hne : p1.2 ≠ p2.2)
    (hmin : ((min p1.2 p2.2 : ℤ) : ℝ) < y.toReal)
    (hmax : y.toReal ≤ ((max p1.2 p2.2 : ℤ) : ℝ))
    (hx1 : x.toReal ≤ ((p1.1 : ℤ) : ℝ)) (hx2 : x.toReal ≤ ((p2.1 : ℤ) : ℝ)) :
    R3.leB x (R3.add (R3.divQ (R3.mulQ (R3.sub y (R3.ofInt p1.2))
      ((p2.1 : ℚ) - (p1.1 : ℚ))) ((p2.2 : ℚ) - (p1.2 : ℚ))) (R3.ofInt p1.1)) = true := by
  rw [R3.leB_iff, R3.toReal_add, R3.toReal_divQ, R3.toReal_mulQ, R3.toReal_sub,
    R3.toReal_ofInt, R3.toReal_ofInt]
  push_cast
  have hform : (y.toReal - (p1.2 : ℝ)) * ((p2.1 : ℝ) - (p1.1 : ℝ)) / ((p2.2 : ℝ) - (p1.2 : ℝ))
        + (p1.1 : ℝ)
      = (p1.1 : ℝ) + (y.toReal - (p1.2 : ℝ)) / ((p2.2 : ℝ) - (p1.2 : ℝ))
        * ((p2.1 : ℝ) - (p1.1 : ℝ)) := by ring
  rw [hform]
  have ht : 0 ≤ (y.toReal - (p1.2 : ℝ)) / ((p2.2 : ℝ) - (p1.2 : ℝ)) ∧
      (y.toReal - (p1.2 : ℝ)) / ((p2.2 : ℝ) - (p1.2 : ℝ)) ≤ 1 := by
    rcases lt_or_gt_of_ne hne with hb | hb
    · have hbR : ((p1.2 : ℤ) : ℝ) < ((p2.2 : ℤ) : ℝ) := by exact_mod_cast hb
      have hmm : min p1.2 p2.2 = p1.2 := min_eq_left (le_of_lt hb)
      have hMM : max p1.2 p2.2 = p2.2 := max_eq_right (le_of_lt hb)
      rw [hmm] at hmin
      rw [hMM] at hmax
      constructor
      · exact div_nonneg (by linarith) (by linarith)
      · rw [div_le_one (by linarith)]
        linarith
    · have hbR : ((p2.2 : ℤ) : ℝ) < ((p1.2 : ℤ) : ℝ) := by exact_mod_cast hb
      have hmm : min p1.2 p2.2 = p2.2 := min_eq_right (le_of_lt hb)
      have hMM : max p1.2 p2.2 = p1.2 := max_eq_left (le_of_lt hb)
      rw [hmm] at hmin
      rw [hMM] at hmax
      have hflip : (y.toReal - (p1.2 : ℝ)) / ((p2.2 : ℝ) - (p1.2 : ℝ))
          = ((p1.2 : ℝ) - y.toReal) / ((p1.2 : ℝ) - (p2.2 : ℝ)) := by
        rw [div_eq_div_iff (by linarith) (by linarith)]
        ring
      rw [hflip]
      constructor
      · exact div_nonneg (by linarith) (by linarith)
      · rw [div_le_one (by linarith)]
        linarith
  obtain ⟨ht0a, ht0b⟩ := ht
  rcases le_total (p1.1 : ℝ) (p2.1 : ℝ) with ha | ha
  · have hnn : 0 ≤ (y.toReal - (p1.2 : ℝ)) / ((p2.2 : ℝ) - (p1.2 : ℝ))
        * ((p2.1 : ℝ) - (p1.1 : ℝ)) := mul_nonneg ht0a (by linarith)
    linarith
  · have hmul : 1 * ((p2.1 : ℝ) - (p1.1 : ℝ))
        ≤ (y.toReal - (p1.2 : ℝ)) / ((p2.2 : ℝ) - (p1.2 : ℝ)) * ((p2.1 : ℝ) - (p1.1 : ℝ)) :=
      mul_le_mul_of_nonpos_right ht0b (by linarith)
    linarith

theorem pipStep_left_flip (x y : R3) (p1 p2 : ℤ × ℤ) (s s2 : PipState)
    (hx1 : x.toReal ≤ ((p1.1 : ℤ) : ℝ)) (hx2 : x.toReal ≤ ((p2.1 : ℤ) : ℝ))
    (hstep : pipStep x y p1 p2 s = some s2) :
    s2.inside = Bool.xor s.inside (bBelow y p1 != bBelow y p2) := by
  by_cases hcond : (R3.ltB (R3.ofInt (min p1.2 p2.2)) y &&
      R3.leB y (R3.ofInt (max p1.2 p2.2)) && R3.leB x (R3.ofInt (max p1.1 p2.1))) = true
  · have hminmax : ((min p1.2 p2.2 : ℤ) : ℝ) < y.toReal ∧
        y.toReal ≤ ((max p1.2 p2.2 : ℤ) : ℝ) := by
      rw [Bool.and_eq_true, Bool.and_eq_true] at hcond
      obtain ⟨⟨h1, h2⟩, _⟩ := hcond
      rw [R3.ltB_iff, R3.toReal_ofInt] at h1
      rw [R3.leB_iff, R3.toReal_ofInt] at h2
      exact ⟨h1, h2⟩
    have hbne : (bBelow y p1 != bBelow y p2) = true := (bBelow_ne_iff y p1 p2).mpr hminmax
    have hne : p1.2 ≠ p2.2 := by
      intro he
      rw [he, min_self, max_self] at hminmax
      linarith [hminmax.1, hminmax.2]
    rw [hbne]
    unfold pipStep at hstep
    rw [if_pos hcond, if_pos hne] at hstep
    by_cases hpp : p1.1 = p2.1
    · rw [if_pos hpp] at hstep
      injection hstep with hs2
      rw [← hs2]
      cases s.inside <;> rfl
    · rw [if_neg hpp] at hstep
      dsimp only [] at hstep
      rw [if_pos (xinters_ge x y p1 p2 hne hminmax.1 hminmax.2 hx1 hx2)] at hstep
      injection hstep with hs2
      rw [← hs2]
      cases s.inside <;> rfl
  · simp only [Bool.not_eq_true] at hcond
    have hid : pipStep x y p1 p2 s = some s := by
      unfold pipStep
      simp [hcond]
    rw [hid] at hstep
    injection hstep with hs2
    have hb2 : (bBelow y p1 != bBelow y p2) = false := by
      rw [← Bool.not_eq_true, bBelow_ne_iff]
      intro hcontra
      have hx3 : R3.leB x (R3.ofInt (max p1.1 p2.1)) = true := by
        rw [R3.leB_iff, R3.toReal_ofInt]
        rw [Int.cast_max]
        exact le_max_of_le_left hx1
      have h1 : R3.ltB (R3.ofInt (min p1.2 p2.2)) y = true := by
        rw [R3.ltB_iff, R3.toReal_ofInt]
        exact hcontra.1
      have h2 : R3.leB y (R3.ofInt (max p1.2 p2.2)) = true := by
        rw [R3.leB_iff, R3.toReal_ofInt]
        exact hcontra.2
      rw [h1, h2, hx3] at hcond
      simp at hcond
    rw [← hs2, hb2]
    cases s.inside <;> rfl

theorem pipStep_id_right (x y : R3) (p1 p2 : ℤ × ℤ) (s : PipState)
    (hx1 : ((p1.1 : ℤ) : ℝ) < x.toReal) (hx2 : ((p2.1 : ℤ) : ℝ) < x.toReal) :
    pipStep x y p1 p2 s = some s := by
  have hc : R3.leB x (R3.ofInt (max p1.1 p2.1)) = false := by
    rw [R3.leB_false_iff, R3.toReal_ofInt, Int.cast_max]
    exact max_lt hx1 hx2
  unfold pipStep
  simp [hc]

theorem pipStep_id_low (x y : R3) (p1 p2 : ℤ × ℤ) (s : PipState)
    (hy1 : y.toReal ≤ ((p1.2 : ℤ) : ℝ)) (hy2 : y.toReal ≤ ((p2.2 : ℤ) : ℝ)) :
    pipStep x y p1 p2 s = some s := by
  have hc : R3.ltB (R3.ofInt (min p1.2 p2.2)) y = false := by
    rw [R3.ltB_false_iff, R3.toReal_ofInt, Int.cast_min]
    exact le_min hy1 hy2
  unfold pipStep
  simp [hc]

theorem pipStep_id_high (x y : R3) (p1 p2 : ℤ × ℤ) (s : PipState)
    (hy1 : ((p1.2 : ℤ) : ℝ) < y.toReal) (hy2 : ((p2.2 : ℤ) : ℝ) < y.toReal) :
    pipStep x y p1 p2 s = some s := by
  have hc : R3.leB y (R3.ofInt (max p1.2 p2.2)) = false := by
    rw [R3.leB_false_iff, R3.toReal_ofInt, Int.cast_max]
    exact max_lt hy1 hy2
  unfold pipStep
  simp [hc]

theorem pipLoop_id (x y : R3) (P : (ℤ × ℤ) → Prop)
    (hstep : ∀ (p1 p2 : ℤ × ℤ) (s : PipState), P p1 → P p2 → pipStep x y p1 p2 s = some s) :
    ∀ (es : List (ℤ × ℤ)) (p1 : ℤ × ℤ) (s : PipState),
      (∀ v ∈ p1 :: es, P v) → pipLoop x y es p1 s = some s
  | [], _, _, _ => rfl
  | p2 :: es, p1, s, hP => by
    unfold pipLoop
    rw [hstep p1 p2 s (hP p1 (List.mem_cons_self _ _))
      (hP p2 (List.mem_cons_of_mem _ (List.mem_cons_self _ _)))]
    exact pipLoop_id x y P hstep es p2 s (fun v hv => hP v (by
      rcases List.mem_cons.mp hv with rfl | hv2
      · exact List.mem_cons_of_mem _ (List.mem_cons_self _ _)
      · exact List.mem_cons_of_mem _ (List.mem_cons_of_mem _ hv2)))

theorem pipLoop_left (x y : R3) :
    ∀ (es : List (ℤ × ℤ)) (p1 : ℤ × ℤ) (s s2 : PipState),
    (∀ v ∈ p1 :: es, x.toReal ≤ ((v.1 : ℤ) : ℝ)) →
    pipLoop x y es p1 s = some s2 →
    s2.inside = Bool.xor s.inside (parityChanges y p1 es)
  | [], p1, s, s2, _, hloop => by
    injection hloop with hs2
    rw [← hs2, parityChanges]
    cases s.inside <;> rfl
  | p2 :: es, p1, s, s2, hP, hloop => by
    unfold pipLoop at hloop
    cases hstep : pipStep x y p1 p2 s with
    | none =>
      have hs := pipStep_isSome x y p1 p2 s
      rw [hstep] at hs
      simp at hs
    | some smid =>
      rw [hstep] at hloop
      have h1 := pipStep_left_flip x y p1 p2 s smid (hP p1 (List.mem_cons_self _ _))
        (hP p2 (List.mem_cons_of_mem _ (List.mem_cons_self _ _))) hstep
      have h2 := pipLoop_left x y es p2 smid s2 (fun v hv => hP v (by
        rcases List.mem_cons.mp hv with rfl | hv2
        · exact List.mem_cons_of_mem _ (List.mem_cons_self _ _)
        · exact List.mem_cons_of_mem _ (List.mem_cons_of_mem _ hv2))) hloop
      rw [h2, h1, parityChanges]
      cases s.inside <;> cases (bBelow y p1 != bBelow y p2) <;>
        cases parityChanges y p2 es <;> rfl

theorem mem_cons_append_singleton {α : Type} {v v0 : α} {rest : List α}
    (hv : v ∈ v0 :: (rest ++ [v0])) : v ∈ v0 :: rest := by
  rcases List.mem_cons.mp hv with rfl | hv2
  · exact List.mem_cons_self _ _
  · rcases List.mem_append.mp hv2 with h | h
    · exact List.mem_cons_of_mem _ h
    · rw [List.mem_singleton.mp h]
      exact List.mem_cons_self _ _

theorem pip_left_false (x y : R3) (v0 : ℤ × ℤ) (rest : List (ℤ × ℤ))
    (hall : ∀ v ∈ v0 :: rest, x.toReal ≤ ((v.1 : ℤ) : ℝ)) :
    point_in_polygon (x, y) (v0 :: rest) = some false := by
  rw [point_in_polygon]
  have hsome := pipLoop_isSome x y (rest ++ [v0]) v0 ⟨false, none⟩
  cases hloop : pipLoop x y (rest ++ [v0]) v0 ⟨false, none⟩ with
  | none =>
    rw [hloop] at hsome
    simp at hsome
  | some s2 =>
    have h1 := pipLoop_left x y (rest ++ [v0]) v0 ⟨false, none⟩ s2
      (fun v hv => hall v (mem_cons_append_singleton hv)) hloop
    rw [parityChanges_eq_bne, List.getLastD_concat] at h1
    simp only [bne_self_eq_false, Bool.xor_false] at h1
    simp [h1]

theorem pip_id_false (x y : R3) (v0 : ℤ × ℤ) (rest : List (ℤ × ℤ)) (P : (ℤ × ℤ) → Prop)
    (hstep : ∀ (p1 p2 : ℤ × ℤ) (s : PipState), P p1 → P p2 → pipStep x y p1 p2 s = some s)
    (hall : ∀ v ∈ v0 :: rest, P v) :
    point_in_polygon (x, y) (v0 :: rest) = some false := by
  rw [point_in_polygon]
  rw [pipLoop_id x y P hstep (rest ++ [v0]) v0 ⟨false, none⟩
    (fun v hv => hall v (mem_cons_append_singleton hv))]
  rfl

theorem tab_bounds_aux_rat (q : ℚ) (hq1 : -1 ≤ (q : ℝ)) (hq2 : (q : ℝ) ≤ 1) :
    -1 ≤ (R3.mk q 0).toReal ∧ (R3.mk q 0).toReal ≤ 1 := by
  rw [R3.toReal]
  norm_num
  constructor <;> linarith

theorem tab_bounds_aux_sqrt (q : ℚ) (hq1 : -(1/2) ≤ (q : ℝ)) (hq2 : (q : ℝ) ≤ 1/2) :
    -1 ≤ (R3.mk 0 q).toReal ∧ (R3.mk 0 q).toReal ≤ 1 := by
  rw [R3.toReal]
  norm_num
  constructor
  · nlinarith [mul_nonneg (show (0:ℝ) ≤ (q : ℝ) + 1/2 by linarith) R3.sqrt3_nonneg,
      R3.sqrt3_le_two, R3.sqrt3_nonneg]
  · nlinarith [mul_nonneg (show (0:ℝ) ≤ 1/2 - (q : ℝ) by linarith) R3.sqrt3_nonneg,
      R3.sqrt3_le_two, R3.sqrt3_nonneg]

theorem cosFlatTab_bounds : ∀ i < 6, -1 ≤ (cosFlatTab i).toReal ∧ (cosFlatTab i).toReal ≤ 1 := by
  intro i hi
  interval_cases i
  · exact tab_bounds_aux_rat 1 (by norm_num) (by norm_num)
  · exact tab_bounds_aux_rat (1/2) (by norm_num) (by norm_num)
  · exact tab_bounds_aux_rat (-(1/2)) (by norm_num) (by norm_num)
  · exact tab_bounds_aux_rat (-1) (by norm_num) (by norm_num)
  · exact tab_bounds_aux_rat (-(1/2)) (by norm_num) (by norm_num)
  · exact tab_bounds_aux_rat (1/2) (by norm_num) (by norm_num)

theorem sinFlatTab_bounds : ∀ i < 6, -1 ≤ (sinFlatTab i).toReal ∧ (sinFlatTab i).toReal ≤ 1 := by
  intro i hi
  interval_cases i
  · exact tab_bounds_aux_sqrt 0 (by norm_num) (by norm_num)
  · exact tab_bounds_aux_sqrt (1/2) (by norm_num) (by norm_num)
  · exact tab_bounds_aux_sqrt (1/2) (by norm_num) (by norm_num)
  · exact tab_bounds_aux_sqrt 0 (by norm_num) (by norm_num)
  · exact tab_bounds_aux_sqrt (-(1/2)) (by norm_num) (by norm_num)
  · exact tab_bounds_aux_sqrt (-(1/2)) (by norm_num) (by norm_num)

theorem cosPointyTab_bounds : ∀ i < 6,
    -1 ≤ (cosPointyTab i).toReal ∧ (cosPointyTab i).toReal ≤ 1 := by
  intro i hi
  interval_cases i
  · exact tab_bounds_aux_sqrt (1/2) (by norm_num) (by norm_num)
  · exact tab_bounds_aux_sqrt 0 (by norm_num) (by norm_num)
  · exact tab_bounds_aux_sqrt (-(1/2)) (by norm_num) (by norm_num)
  · exact tab_bounds_aux_sqrt (-(1/2)) (by norm_num) (by norm_num)
  · exact tab_bounds_aux_sqrt 0 (by norm_num) (by norm_num)
  · exact tab_bounds_aux_sqrt (1/2) (by norm_num) (by norm_num)

theorem sinPointyTab_bounds : ∀ i < 6,
    -1 ≤ (sinPointyTab i).toReal ∧ (sinPointyTab i).toReal ≤ 1 := by
  intro i hi
  interval_cases i
  · exact tab_bounds_aux_rat (1/2) (by norm_num) (by norm_num)
  · exact tab_bounds_aux_rat 1 (by norm_num) (by norm_num)
  · exact tab_bounds_aux_rat (1/2) (by norm_num) (by norm_num)
  · exact tab_bounds_aux_rat (-(1/2)) (by norm_num) (by norm_num)
  · exact tab_bounds_aux_rat (-1) (by norm_num) (by norm_num)
  · exact tab_bounds_aux_rat (-(1/2)) (by norm_num) (by norm_num)

theorem vertex_coord_bounds (c : R3) (tab : R3) (n : ℕ)
    (hc : ((n : ℕ) : ℝ) ≤ c.toReal) (htl : -1 ≤ tab.toReal) (hth : tab.toReal ≤ 1) :
    R3.trunc (R3.sub c (R3.ofInt (n : ℤ))) ≤ R3.trunc (R3.add c (tab.mulQ n)) ∧
    R3.trunc (R3.add c (tab.mulQ n)) ≤ R3.trunc (R3.sub c (R3.ofInt (n : ℤ))) + 2 * (n : ℤ) := by
  have h1 : (R3.sub c (R3.ofInt (n : ℤ))).toReal = c.toReal - (n : ℝ) := by
    rw [R3.toReal_sub, R3.toReal_ofInt]
    push_cast
    ring
  have h2 : (R3.add c (tab.mulQ n)).toReal = c.toReal + tab.toReal * (n : ℝ) := by
    rw [R3.toReal_add, R3.toReal_mulQ, Rat.cast_natCast]
  have hu : (0 : ℝ) ≤ c.toReal - (n : ℝ) := by linarith
  have hn0 : (0 : ℝ) ≤ (n : ℝ) := Nat.cast_nonneg n
  constructor
  · rw [R3.trunc_eq, R3.trunc_eq, h1, h2]
    apply R3.truncReal_mono
    nlinarith
  · rw [R3.trunc_eq, R3.trunc_eq, h1, h2]
    have hupper : R3.truncReal (c.toReal + tab.toReal * (n : ℝ))
        ≤ R3.truncReal ((c.toReal - (n : ℝ)) + ((2 * n : ℕ) : ℝ)) := by
      apply R3.truncReal_mono
      push_cast
      nlinarith
    rw [truncReal_add_nat _ _ hu] at hupper
    have hcast : ((2 * n : ℕ) : ℤ) = 2 * (n : ℤ) := by push_cast; ring
    rw [hcast] at hupper
    exact hupper

theorem get_vertices_bounds (h : Hex)
    (hcx : ((h.size : ℕ) : ℝ) ≤ h.center_x.toReal)
    (hcy : ((h.size : ℕ) : ℝ) ≤ h.center_y.toReal) :
    ∀ v ∈ h.get_vertices h.size,
      (R3.trunc (R3.sub h.center_x (R3.ofInt (h.size : ℤ))) ≤ v.1 ∧
       v.1 ≤ R3.trunc (R3.sub h.center_x (R3.ofInt (h.size : ℤ))) + 2 * (h.size : ℤ)) ∧
      (R3.trunc (R3.sub h.center_y (R3.ofInt (h.size : ℤ))) ≤ v.2 ∧
       v.2 ≤ R3.trunc (R3.sub h.center_y (R3.ofInt (h.size : ℤ))) + 2 * (h.size : ℤ)) := by
  intro v hv
  rw [Hex.get_vertices] at hv
  obtain ⟨i, hi', rfl⟩ := List.mem_map.mp hv
  have hi : i < 6 := List.mem_range.mp hi'
  by_cases ho : h.orientation = "Flat"
  · rw [if_pos ho]
    exact ⟨vertex_coord_bounds h.center_x (cosFlatTab i) h.size hcx
        (cosFlatTab_bounds i hi).1 (cosFlatTab_bounds i hi).2,
      vertex_coord_bounds h.center_y (sinFlatTab i) h.size hcy
        (sinFlatTab_bounds i hi).1 (sinFlatTab_bounds i hi).2⟩
  · rw [if_neg ho]
    exact ⟨vertex_coord_bounds h.center_x (cosPointyTab i) h.size hcx
        (cosPointyTab_bounds i hi).1 (cosPointyTab_bounds i hi).2,
      vertex_coord_bounds h.center_y (sinPointyTab i) h.size hcy
        (sinPointyTab_bounds i hi).1 (sinPointyTab_bounds i hi).2⟩

theorem pip_low_false (x y : R3) (v0 : ℤ × ℤ) (rest : List (ℤ × ℤ))
    (hall : ∀ v ∈ v0 :: rest, y.toReal ≤ ((v.2 : ℤ) : ℝ)) :
    point_in_polygon (x, y) (v0 :: rest) = some false :=
  pip_id_false x y v0 rest (fun v => y.toReal ≤ ((v.2 : ℤ) : ℝ))
    (fun p1 p2 s h1 h2 => pipStep_id_low x y p1 p2 s h1 h2) hall

/-- **C5** (amended): the pygame bounding-box pre-check in `contains_point` is
half-open (`Rect.collidepoint` excludes the right and bottom edges), so it is
not a pure optimization: it can reject points the ray-casting test accepts.
For any point whose truncated coordinates lie strictly below the box's
exclusive right/bottom bounds — and any hex whose center is at least `size`
away from both axes, as holds for every grid-constructed cell — the result
equals `point_in_polygon` alone. -/
theorem c5_bbox_agrees_strictly_inside (h : Hex) (p : R3 × R3)
    (hcx : R3.leB (R3.ofInt (h.size : ℤ)) h.center_x = true)
    (hcy : R3.leB (R3.ofInt (h.size : ℤ)) h.center_y = true)
    (hpx : R3.trunc p.1 < R3.trunc (R3.sub h.center_x (R3.ofInt (h.size : ℤ))) + 2 * (h.size : ℤ))
    (hpy : R3.trunc p.2 < R3.trunc (R3.sub h.center_y (R3.ofInt (h.size : ℤ))) + 2 * (h.size : ℤ)) :
    h.contains_point p = pipB p (h.get_vertices h.size) := by
  have hcx' : ((h.size : ℕ) : ℝ) ≤ h.center_x.toReal := by
    rw [R3.leB_iff, R3.toReal_ofInt] at hcx
    exact_mod_cast hcx
  have hcy' : ((h.size : ℕ) : ℝ) ≤ h.center_y.toReal := by
    rw [R3.leB_iff, R3.toReal_ofInt] at hcy
    exact_mod_cast hcy
  cases hpip : pipB p (h.get_vertices h.size) with
  | false =>
    simp only [Hex.contains_point, hpip, Bool.and_false]
  | true =>
    obtain ⟨v0, rest, hvs⟩ : ∃ v0 rest, h.get_vertices h.size = v0 :: rest := by
      cases hv : h.get_vertices h.size with
      | nil =>
        have h6 := get_vertices_length h h.size
        rw [hv] at h6
        simp at h6
      | cons a l => exact ⟨a, l, rfl⟩
    have hbounds := get_vertices_bounds h hcx' hcy'
    have hex_x : ∃ v ∈ v0 :: rest, ((v.1 : ℤ) : ℝ) < p.1.toReal := by
      by_contra hc
      push_neg at hc
      have hfalse := pip_left_false p.1 p.2 v0 rest hc
      rw [pipB, hvs] at hpip
      rw [show point_in_polygon p (v0 :: rest)
          = point_in_polygon (p.1, p.2) (v0 :: rest) from rfl, hfalse] at hpip
      exact absurd hpip (by simp)
    have hex_y : ∃ v ∈ v0 :: rest, ((v.2 : ℤ) : ℝ) < p.2.toReal := by
      by_contra hc
      push_neg at hc
      have hfalse := pip_low_false p.1 p.2 v0 rest hc
      rw [pipB, hvs] at hpip
      rw [show point_in_polygon p (v0 :: rest)
          = point_in_polygon (p.1, p.2) (v0 :: rest) from rfl, hfalse] at hpip
      exact absurd hpip (by simp)
    obtain ⟨vx, hvx, hvxlt⟩ := hex_x
    obtain ⟨vy, hvy, hvylt⟩ := hex_y
    have hvx' : vx ∈ h.get_vertices h.size := by rw [hvs]; exact hvx
    have hvy' : vy ∈ h.get_vertices h.size := by rw [hvs]; exact hvy
    have hLvx := (hbounds vx hvx').1.1
    have hTvy := (hbounds vy hvy').2.1
    have hL_le : R3.trunc (R3.sub h.center_x (R3.ofInt (h.size : ℤ))) ≤ R3.trunc p.1 := by
      rw [R3.trunc_eq p.1]
      refine le_trans (Int.le_floor.mpr ?_) (R3.floor_le_truncReal _)
      have h1 : ((R3.trunc (R3.sub h.center_x (R3.ofInt (h.size : ℤ))) : ℤ) : ℝ)
          ≤ ((vx.1 : ℤ) : ℝ) := by exact_mod_cast hLvx
      linarith
    have hT_le : R3.trunc (R3.sub h.center_y (R3.ofInt (h.size : ℤ))) ≤ R3.trunc p.2 := by
      rw [R3.trunc_eq p.2]
      refine le_trans (Int.le_floor.mpr ?_) (R3.floor_le_truncReal _)
      have h1 : ((R3.trunc (R3.sub h.center_y (R3.ofInt (h.size : ℤ))) : ℤ) : ℝ)
          ≤ ((vy.2 : ℤ) : ℝ) := by exact_mod_cast hTvy
      linarith
    simp only [Hex.contains_point, hpip, Bool.and_true, Bool.and_eq_true, decide_eq_true_eq]
    exact ⟨⟨⟨hL_le, hpx⟩, hT_le⟩, hpy⟩

/-- **C5** (counterexample): for the grid-constructed hex at (0,0), size 40,
flat orientation (center 50,50), the point (90, 50) is a vertex of the
polygon and accepted by the ray-casting test, yet `contains_point` rejects it:
`Rect(10, 10, 80, 80).collidepoint(90, 50)` is false because pygame rects are
half-open on the right and bottom. The bounding-box pre-check is therefore not
a pure optimization and the results do not always match the polygon test. -/
theorem c5_counterexample :
    pipB (R3.ofInt 90, R3.ofInt 50)
      ((Hex.make 0 0 40 0 0 "Flat").get_vertices (Hex.make 0 0 40 0 0 "Flat").size) = true ∧
    (Hex.make 0 0 40 0 0 "Flat").contains_point (R3.ofInt 90, R3.ofInt 50) = false := by
  constructor
  · decide
  · decide

theorem c5_bbox_agrees_strictly_inside_witness :
    R3.leB (R3.ofInt ((Hex.make 0 0 40 0 0 "Flat").size : ℤ))
      (Hex.make 0 0 40 0 0 "Flat").center_x = true ∧
    R3.leB (R3.ofInt ((Hex.make 0 0 40 0 0 "Flat").size : ℤ))
      (Hex.make 0 0 40 0 0 "Flat").center_y = true ∧
    R3.trunc (R3.ofInt 50) < R3.trunc (R3.sub (Hex.make 0 0 40 0 0 "Flat").center_x
      (R3.ofInt ((Hex.make 0 0 40 0 0 "Flat").size : ℤ))) + 2 * ((Hex.make 0 0 40 0 0 "Flat").size : ℤ) ∧
    R3.trunc (R3.ofInt 50) < R3.trunc (R3.sub (Hex.make 0 0 40 0 0 "Flat").center_y
      (R3.ofInt ((Hex.make 0 0 40 0 0 "Flat").size : ℤ))) + 2 * ((Hex.make 0 0 40 0 0 "Flat").size : ℤ) ∧
    (Hex.make 0 0 40 0 0 "Flat").contains_point (R3.ofInt 50, R3.ofInt 50)
      = pipB (R3.ofInt 50, R3.ofInt 50)
          ((Hex.make 0 0 40 0 0 "Flat").get_vertices (Hex.make 0 0 40 0 0 "Flat").size) :=
  ⟨by decide, by decide, by decide, by decide,
    c5_bbox_agrees_strictly_inside (Hex.make 0 0 40 0 0 "Flat")
      (R3.ofInt 50, R3.ofInt 50) (by decide) (by decide) (by decide) (by decide)⟩
